import Mathlib

/-!
Verification development for the poly-maker live trading engine.

Shallow embedding of the engine's core state and operations over ℚ
(Python floats are modelled by exact rationals; NaN-producing float
divisions are modelled by `Option ℚ` with `none` for an invalid value).
Each definition embeds the Python function of the same (or clearly
indicated) name from the repository sources.
-/

namespace PolyMaker

/-- Order side, modelling the lowercased side strings `'buy'` / `'sell'`. -/
inductive Side where
  | buy
  | sell
deriving DecidableEq

/-- Record `{'price': float, 'size': float}` used for user orders. -/
structure OrderRec where
  price : ℚ
  size : ℚ
deriving DecidableEq

/-- Position record `{'size': float, 'avgPrice': float}`
(`global_state.positions[token]`). -/
structure Position where
  size : ℚ
  avgPrice : ℚ
deriving DecidableEq

/-- The slice of engine global state used by `set_position` and
`update_positions` (src/trading_bot/data_utils.py):
`global_state.positions`, `global_state.last_trade_update`, and
`global_state.performing` (keyed by `"{token}_{side}"`). -/
structure PosState where
  positions : String → Option Position
  lastTradeUpdate : String → Option ℚ
  performing : String → List String

/-- Embeds `set_position(token, side, size, price)` from
src/trading_bot/data_utils.py lines 122-160.  `size` is negated for sells;
a buy into a zero position takes `avgPrice := price`; a buy into a non-zero
position blends the average price; a sell (or zero-size event) keeps the
previous average price.  `last_trade_update[token]` is set to the current
time.  A token with no existing record gets `{size, price}` directly. -/
def set_position (st : PosState) (now : ℚ) (token : String) (side : Side)
    (size price : ℚ) : PosState :=
  let signedSize := if side = Side.sell then -size else size
  let newPos : Position :=
    match st.positions token with
    | some prev =>
        let avgPriceNew :=
          if 0 < signedSize then
            if prev.size = 0 then price
            else (prev.avgPrice * prev.size + price * signedSize) /
                  (prev.size + signedSize)
          else prev.avgPrice
        { size := prev.size + signedSize, avgPrice := avgPriceNew }
    | none => { size := signedSize, avgPrice := price }
  { st with
    positions := fun t => if t = token then some newPos else st.positions t,
    lastTradeUpdate := fun t => if t = token then some now
                                else st.lastTradeUpdate t }

/-- One row of the server position table returned by
`client.get_all_positions()`. -/
structure ServerPos where
  asset : String
  size : ℚ
  avgPrice : ℚ

/-- Embeds the per-row body of `update_positions(avgOnly)` from
src/trading_bot/data_utils.py lines 9-60: `avgPrice` is always overwritten
from the server row; `size` is overwritten in full mode, and in avg-only
mode only when no trade is pending on either side of the asset and the
last local trade update is absent or at least 5 seconds old. -/
def update_positions_row (now : ℚ) (avgOnly : Bool) (st : PosState)
    (row : ServerPos) : PosState :=
  let position := (st.positions row.asset).getD { size := 0, avgPrice := 0 }
  let position1 := { position with avgPrice := row.avgPrice }
  let position2 :=
    if avgOnly = false then { position1 with size := row.size }
    else
      let buyPending := st.performing (row.asset ++ "_buy") ≠ []
      let sellPending := st.performing (row.asset ++ "_sell") ≠ []
      if buyPending ∨ sellPending then position1
      else
        match st.lastTradeUpdate row.asset with
        | some t => if now - t < 5 then position1
                    else { position1 with size := row.size }
        | none => { position1 with size := row.size }
  { st with
    positions := fun x => if x = row.asset then some position2
                          else st.positions x }

/-- Embeds `update_positions(avgOnly)` from src/trading_bot/data_utils.py
lines 6-60: iterate over the server rows, applying the per-row update. -/
def update_positions (now : ℚ) (avgOnly : Bool) (st : PosState)
    (rows : List ServerPos) : PosState :=
  rows.foldl (update_positions_row now avgOnly) st

/-- The condition under which avg-only reconciliation is allowed to
overwrite the local size (spec §4.7): no pending trade on either side and
the last local trade update, when present, is at least 5 seconds old. -/
def sizeRefreshAllowed (st : PosState) (now : ℚ) (asset : String) : Bool :=
  (st.performing (asset ++ "_buy") == []) &&
  (st.performing (asset ++ "_sell") == []) &&
  (match st.lastTradeUpdate asset with
   | some t => decide (5 ≤ now - t)
   | none => true)

/-- The strategy-relevant market row fields consumed by
`AnSMarketStrategy.get_buy_sell_amount`: `row['min_size']` is a mandatory
key; `row.get('trade_size', …)` and `row.get('max_size', …)` may be
absent. -/
structure StrategyRow where
  min_size : ℚ
  trade_size : Option ℚ
  max_size : Option ℚ

/-- Embeds `AnSMarketStrategy.get_buy_sell_amount(position, row, force_sell)`
from src/trading_bot/market_strategy/ans_strategy.py lines 10-48.
Returns `(buy_amount, sell_amount)`. -/
def get_buy_sell_amount (position : ℚ) (row : StrategyRow)
    (force_sell : Bool) : ℚ × ℚ :=
  let trade_size := row.trade_size.getD position
  let max_size := row.max_size.getD trade_size
  let buy0 : ℚ := if position < max_size then min trade_size (max_size - position) else 0
  let sell0 : ℚ := if trade_size ≤ position ∨ force_sell = true then position else 0
  let buy1 := if buy0 < row.min_size then
      (if 7/10 * row.min_size < buy0 then row.min_size else 0) else buy0
  let sell1 := if sell0 < row.min_size then
      (if 7/10 * row.min_size < sell0 then row.min_size else 0) else sell0
  let sell2 := if position < sell1 then
      (if force_sell = true then position else 0) else sell1
  let buy2 := if force_sell = true then 0 else buy1
  (buy2, sell2)

end PolyMaker

namespace PolyMaker

/-- Concrete position-state used to witness the position-accounting
theorems. -/
def egPosState : PosState :=
  { positions := fun t => if t = "T" then some { size := 2, avgPrice := 1/2 } else none,
    lastTradeUpdate := fun _ => none,
    performing := fun _ => [] }

/-- Concrete market row used to witness the sizing theorems. -/
def egRowSizing : StrategyRow :=
  { min_size := 10, trade_size := some 20, max_size := some 100 }

/-- Concrete position-state with a pending buy trade, used to witness the
avg-only reconciliation theorem. -/
def egPendingState : PosState :=
  { positions := fun t => if t = "T" then some { size := 2, avgPrice := 1/2 } else none,
    lastTradeUpdate := fun _ => none,
    performing := fun k => if k = "T_buy" then ["id1"] else [] }

/-- Scheduler state (src/trading_bot/task_scheduler.py `TaskScheduler`):
`inflight` is the `self._inflight` set of markets with a scheduled pass;
`ordersInFlight` maps each market to its in-flight order ids;
`running` counts, per market, the passes spawned and not yet finished.

Modelled from the spec: the `orders_in_flight` module is not under src/;
per spec §3, `OrdersInFlight(market)` is the set of order ids submitted
but not yet acknowledged by a user-stream event. -/
structure SchedState where
  inflight : Finset String
  ordersInFlight : String → List String
  running : String → ℕ

/-- Modelled from the spec: `get_orders_in_flight(market)` returns the set
of in-flight order ids of the market (module orders_in_flight absent from
src/). -/
def get_orders_in_flight (s : SchedState) (market : String) : List String :=
  s.ordersInFlight market

/-- Embeds `TaskScheduler.schedule_task` (src/trading_bot/task_scheduler.py
lines 20-45) as one atomic transition: return unchanged if the market is
already in `_inflight`; return unchanged if the market has in-flight
orders; otherwise add the market to `_inflight` and spawn the pass.  The
body contains no awaited suspension point between the membership check and
`asyncio.create_task` (the `asyncio.Lock` fast path does not yield and the
critical section contains no `await`), so under the cooperative event loop
the whole call runs atomically. -/
def schedule_task (s : SchedState) (market : String) : SchedState :=
  if market ∈ s.inflight then s
  else if 0 < (get_orders_in_flight s market).length then s
  else { s with
    inflight := insert market s.inflight,
    running := fun m => if m = market then s.running m + 1 else s.running m }

/-- Embeds the `finally` block of `run_task` inside `schedule_task`: on
completion of the pass -- normal return or exception, both reach the
`finally` -- the market is removed from `_inflight` and the pass stops
running. -/
def finish_task (s : SchedState) (market : String) : SchedState :=
  { s with
    inflight := s.inflight.erase market,
    running := fun m => if m = market then s.running m - 1 else s.running m }

/-- Reachable scheduler states: from an initial state with no scheduled
markets and no running pass, by scheduling calls, pass completions (only a
running pass can complete), and arbitrary changes to the in-flight order
sets (`set_order_in_flight` / `clear_order_in_flight`). -/
inductive SchedReach : SchedState → Prop where
  | init (oif : String → List String) :
      SchedReach { inflight := ∅, ordersInFlight := oif, running := fun _ => 0 }
  | schedule (s : SchedState) (m : String) :
      SchedReach s → SchedReach (schedule_task s m)
  | finish (s : SchedState) (m : String) :
      SchedReach s → 0 < s.running m → SchedReach (finish_task s m)
  | ordersChange (s : SchedState) (oif : String → List String) :
      SchedReach s → SchedReach { s with ordersInFlight := oif }

/-- Concrete initial scheduler state used for witnessing. -/
def egSchedInit : SchedState :=
  { inflight := ∅, ordersInFlight := fun _ => [], running := fun _ => 0 }

/-- Lookup in an association-list model of a Python `dict` / `SortedDict`
from price to size.  Keys are kept unique, so lookup order is irrelevant. -/
def dget : List (ℚ × ℚ) → ℚ → Option ℚ
  | [], _ => none
  | e :: t, p => if e.1 = p then some e.2 else dget t p

/-- Assignment `d[p] = s` on a Python dict: update the existing key in place, or
append a new entry. -/
def dinsert : List (ℚ × ℚ) → ℚ → ℚ → List (ℚ × ℚ)
  | [], p, s => [(p, s)]
  | e :: t, p, s => if e.1 = p then (p, s) :: t else e :: dinsert t p s

/-- Removal `d.pop(p, None)` / `del d[p]` on a Python dict with unique keys. -/
def derase : List (ℚ × ℚ) → ℚ → List (ℚ × ℚ)
  | [], _ => []
  | e :: t, p => if e.1 = p then t else e :: derase t p

/-- The keys of an association-list dict. -/
def keysOf (l : List (ℚ × ℚ)) : List ℚ := l.map Prod.fst

/-- Build one book side from snapshot entries:
`for entry in data: book[key(entry.price)] = entry.size`, where `key` is
the transformation applied to the raw price (the identity in
data_processing.py, 3-decimal rounding in order_books.py). -/
def buildSide (key : ℚ → ℚ) (entries : List (ℚ × ℚ)) : List (ℚ × ℚ) :=
  entries.foldl (fun acc e => dinsert acc (key e.1) e.2) []

/-- Rebuild one reverse-book side: iterate the source side and insert each
size at the reflected price `g p` (`1 - p` in data_processing.py,
`round(1 - p, 3)` in order_books.py). -/
def syncSide (g : ℚ → ℚ) (src : List (ℚ × ℚ)) : List (ℚ × ℚ) :=
  src.foldl (fun acc e => dinsert acc (g e.1) e.2) []

/-- The two price→size ladders of one token's order book. -/
structure BookL where
  bids : List (ℚ × ℚ)
  asks : List (ℚ × ℚ)

/-- Which ladder a price-change event targets (`'BUY' → bids`,
`'SELL' → asks`). -/
inductive BookSide where
  | bids
  | asks
deriving DecidableEq

/-- Python `round(x, 3)`, modelled on exact rationals. -/
def round3 (q : ℚ) : ℚ := ((round (1000 * q) : ℤ) : ℚ) / 1000

/-- Embeds `sync_order_book_data_for_reverse_token`
(src/trading_bot/data_processing.py lines 18-26): the reverse token's book
is replaced by a fresh book whose asks come from the updated token's bids
and whose bids come from the updated token's asks, each level keyed at
`1 - price`. -/
def sync_order_book_data_for_reverse_token (b : BookL) : BookL :=
  { bids := syncSide (fun p => 1 - p) b.asks,
    asks := syncSide (fun p => 1 - p) b.bids }

/-- Embeds the ladder replacement of `process_book_data`
(src/trading_bot/data_processing.py lines 28-35): both ladders of the
updated token are rebuilt from the snapshot, prices taken verbatim. -/
def process_book_data (bids asks : List (ℚ × ℚ)) : BookL :=
  { bids := buildSide (fun p => p) bids,
    asks := buildSide (fun p => p) asks }

/-- Embeds the ladder update of `process_price_change`
(src/trading_bot/data_processing.py lines 39-49): a zero size removes the
level, otherwise the level is set to the new size. -/
def process_price_change (b : BookL) (side : BookSide) (price size : ℚ) :
    BookL :=
  match side with
  | BookSide.bids =>
      if size = 0 then { b with bids := derase b.bids price }
      else { b with bids := dinsert b.bids price size }
  | BookSide.asks =>
      if size = 0 then { b with asks := derase b.asks price }
      else { b with asks := dinsert b.asks price size }

/-- Embeds `OrderBook._sync_reverse_token`
(src/trading_bot/order_books.py lines 44-62): the reverse book's ladders
are cleared and refilled with every level reflected to
`round(1 - price, 3)`. -/
def OrderBook_sync_reverse_token (b : BookL) : BookL :=
  { bids := syncSide (fun p => round3 (1 - p)) b.asks,
    asks := syncSide (fun p => round3 (1 - p)) b.bids }

/-- Embeds the ladder replacement of `OrderBook.process_book_data`
(src/trading_bot/order_books.py lines 26-39): both ladders are cleared and
refilled from the snapshot with prices rounded to three decimals. -/
def OrderBook_process_book_data (bids asks : List (ℚ × ℚ)) : BookL :=
  { bids := buildSide round3 bids,
    asks := buildSide round3 asks }

/-- Embeds the ladder update of `OrderBook.process_price_change`
(src/trading_bot/order_books.py lines 64-81): the price is rounded to
three decimals; a zero size removes the level, otherwise it is set. -/
def OrderBook_process_price_change (b : BookL) (side : BookSide)
    (price size : ℚ) : BookL :=
  let p := round3 price
  match side with
  | BookSide.bids =>
      if size = 0 then { b with bids := derase b.bids p }
      else { b with bids := dinsert b.bids p size }
  | BookSide.asks =>
      if size = 0 then { b with asks := derase b.asks p }
      else { b with asks := dinsert b.asks p size }

/-- The books of a complementary token pair (the two registry entries
linked through `REVERSE_TOKENS`). -/
structure PairBooks where
  book1 : BookL
  book2 : BookL

/-- A book mutation: a full snapshot (`book` event) or one price-change
entry, applied to one of the two complementary tokens. -/
inductive BookMutation where
  | snapshot (onFirst : Bool) (bids asks : List (ℚ × ℚ))
  | priceChange (onFirst : Bool) (side : BookSide) (price size : ℚ)

/-- The empty book each token starts with. -/
def emptyBook : BookL := { bids := [], asks := [] }

/-- One mutation step of the data_processing.py book store: mutate the
designated token's book, then synchronously rebuild the complementary
token's book (`sync_order_book_data_for_reverse_token` is called at the
end of both `process_book_data` and `process_price_change`). -/
def applyMutationDP (st : PairBooks) (m : BookMutation) : PairBooks :=
  match m with
  | BookMutation.snapshot true bids asks =>
      { book1 := process_book_data bids asks,
        book2 := sync_order_book_data_for_reverse_token
                   (process_book_data bids asks) }
  | BookMutation.snapshot false bids asks =>
      { book1 := sync_order_book_data_for_reverse_token
                   (process_book_data bids asks),
        book2 := process_book_data bids asks }
  | BookMutation.priceChange true side p s =>
      { book1 := process_price_change st.book1 side p s,
        book2 := sync_order_book_data_for_reverse_token
                   (process_price_change st.book1 side p s) }
  | BookMutation.priceChange false side p s =>
      { book1 := sync_order_book_data_for_reverse_token
                   (process_price_change st.book2 side p s),
        book2 := process_price_change st.book2 side p s }

/-- One mutation step of the order_books.py `OrderBook` pair
(`_sync_reverse_token` is called at the end of both `process_book_data`
and `process_price_change`). -/
def applyMutationOB (st : PairBooks) (m : BookMutation) : PairBooks :=
  match m with
  | BookMutation.snapshot true bids asks =>
      { book1 := OrderBook_process_book_data bids asks,
        book2 := OrderBook_sync_reverse_token
                   (OrderBook_process_book_data bids asks) }
  | BookMutation.snapshot false bids asks =>
      { book1 := OrderBook_sync_reverse_token
                   (OrderBook_process_book_data bids asks),
        book2 := OrderBook_process_book_data bids asks }
  | BookMutation.priceChange true side p s =>
      { book1 := OrderBook_process_price_change st.book1 side p s,
        book2 := OrderBook_sync_reverse_token
                   (OrderBook_process_price_change st.book1 side p s) }
  | BookMutation.priceChange false side p s =>
      { book1 := OrderBook_sync_reverse_token
                   (OrderBook_process_price_change st.book2 side p s),
        book2 := OrderBook_process_price_change st.book2 side p s }

/-- Run a sequence of mutations against the data_processing.py store,
starting from empty books. -/
def runDP (ms : List BookMutation) : PairBooks :=
  ms.foldl applyMutationDP { book1 := emptyBook, book2 := emptyBook }

/-- Run a sequence of mutations against the order_books.py `OrderBook`
pair, starting from empty books. -/
def runOB (ms : List BookMutation) : PairBooks :=
  ms.foldl applyMutationOB { book1 := emptyBook, book2 := emptyBook }

/-- The mirror invariant (spec §8): every ask level `(p, s)` of one token
corresponds exactly to a bid level `(1-p, s)` of the complementary token,
and symmetrically; a level absent on one side is absent from the mirror
(the `Option`-valued equalities carry both directions). -/
def MirrorInv (st : PairBooks) : Prop :=
  ∀ p : ℚ,
    dget st.book1.asks p = dget st.book2.bids (1 - p)
    ∧ dget st.book1.bids p = dget st.book2.asks (1 - p)
    ∧ dget st.book2.asks p = dget st.book1.bids (1 - p)
    ∧ dget st.book2.bids p = dget st.book1.asks (1 - p)

/-- A dict side is well-formed when its keys are pairwise distinct. -/
def NodupKeys (l : List (ℚ × ℚ)) : Prop := (keysOf l).Nodup

/-- All keys of a ladder lie on the 3-decimal grid (order_books.py rounds
every inserted price with `round(_, 3)`). -/
def Keys3 (l : List (ℚ × ℚ)) : Prop := ∀ e ∈ l, round3 e.1 = e.1

/-- Variant of `Option.or` specialised to sizes: the first dict that knows the key
wins. -/
def oor : Option ℚ → Option ℚ → Option ℚ
  | some s, _ => some s
  | none, y => y

end PolyMaker

namespace PolyMaker.TCNF

/-- src/configuration.py `TradingConfig.MIN_PRICE_LIMIT`. -/
def MIN_PRICE_LIMIT : ℚ := 1/10

/-- src/configuration.py `TradingConfig.MAX_PRICE_LIMIT`. -/
def MAX_PRICE_LIMIT : ℚ := 9/10

/-- src/configuration.py `TradingConfig.PRICE_PRECISION_LIMIT`
(box-sum guard threshold). -/
def PRICE_PRECISION_LIMIT : ℚ := 99/100

/-- src/configuration.py `TradingConfig.BUY_PRICE_DIFF_THRESHOLD`. -/
def BUY_PRICE_DIFF_THRESHOLD : ℚ := 1/1000

/-- src/configuration.py `TradingConfig.SELL_PRICE_DIFF_THRESHOLD`. -/
def SELL_PRICE_DIFF_THRESHOLD : ℚ := 1/1000

/-- src/configuration.py `TradingConfig.SIZE_DIFF_PERCENTAGE`. -/
def SIZE_DIFF_PERCENTAGE : ℚ := 1/10

/-- src/configuration.py `TradingConfig.MIN_MERGE_SIZE`. -/
def MIN_MERGE_SIZE : ℚ := 20

/-- src/configuration.py `TradingConfig.STOP_LOSS_THRESHOLD`. -/
def STOP_LOSS_THRESHOLD : ℚ := -4

/-- src/configuration.py `TradingConfig.STOP_LOSS_SPREAD_THRESHOLD`. -/
def STOP_LOSS_SPREAD_THRESHOLD : ℚ := 4/100

/-- src/configuration.py `TradingConfig.STOP_LOSS_SLEEP_PERIOD_MINS`. -/
def STOP_LOSS_SLEEP_PERIOD_MINS : ℚ := 90

/-- src/configuration.py `TradingConfig.MARKET_DEPTH_CALC_PCT`. -/
def MARKET_DEPTH_CALC_PCT : ℚ := 6/10

/-- src/configuration.py `TradingConfig.MARKET_DEPTH_CALC_LEVELS`. -/
def MARKET_DEPTH_CALC_LEVELS : ℕ := 10

end PolyMaker.TCNF

namespace PolyMaker

/-- The agent's open orders on one token
(`get_order(token)` view: a buy and a sell record). -/
structure TokenOrders where
  buy : OrderRec
  sell : OrderRec
deriving DecidableEq

/-- Externally visible actions a trading pass performs through the
exchange client and the risk journal: `client.cancel_all_asset(token)`,
`client.create_order(token, side, price, size, …)`, and writing the
per-market risk journal file with its `sleep_till` (in minutes). -/
inductive Effect where
  | cancelAllAsset (token : String)
  | createOrder (token : String) (side : Side) (price size : ℚ)
  | writeRiskJournal (market : String) (sleepTill : ℚ)
deriving DecidableEq

/-- Embeds `send_buy_order` (src/trading_bot/trading.py lines 28-73) as
the list of client effects it performs.  `price_diff`/`size_diff` are
infinite when there is no existing order, so any comparison against the
thresholds holds; cancel-replace keeps an existing close-enough buy;
a new buy is only created inside `[MIN_PRICE_LIMIT, MAX_PRICE_LIMIT)`.
The in-flight registration of the returned order id is outside this
model. -/
def send_buy_order (token : String) (orders : TokenOrders)
    (price size : ℚ) : List Effect :=
  let priceDiffBig : Bool :=
    if 0 < orders.buy.price
    then decide (TCNF.BUY_PRICE_DIFF_THRESHOLD < |orders.buy.price - price|)
    else true
  let sizeDiffBig : Bool :=
    if 0 < orders.buy.size
    then decide (size * TCNF.SIZE_DIFF_PERCENTAGE < |orders.buy.size - size|)
    else true
  let shouldCancel : Bool :=
    priceDiffBig || sizeDiffBig || decide (orders.buy.size = 0)
  if shouldCancel then
    (if 0 < orders.buy.size ∨ 0 < orders.sell.size
     then [Effect.cancelAllAsset token] else [])
    ++ (if TCNF.MIN_PRICE_LIMIT ≤ price ∧ price < TCNF.MAX_PRICE_LIMIT
        then [Effect.createOrder token Side.buy price size] else [])
  else []

/-- Embeds `send_sell_order` (src/trading_bot/trading.py lines 76-117) as
the list of client effects it performs.  Unlike the buy path there is no
price-range check on sells. -/
def send_sell_order (token : String) (orders : TokenOrders)
    (price size : ℚ) : List Effect :=
  let priceDiffBig : Bool :=
    if 0 < orders.sell.price
    then decide (TCNF.SELL_PRICE_DIFF_THRESHOLD < |orders.sell.price - price|)
    else true
  let sizeDiffBig : Bool :=
    if 0 < orders.sell.size
    then decide (size * TCNF.SIZE_DIFF_PERCENTAGE < |orders.sell.size - size|)
    else true
  let shouldCancel : Bool :=
    priceDiffBig || sizeDiffBig || decide (orders.sell.size = 0)
  if shouldCancel then
    (if 0 < orders.sell.size ∨ 0 < orders.buy.size
     then [Effect.cancelAllAsset token] else [])
    ++ [Effect.createOrder token Side.sell price size]
  else []

/-- Embeds `round_down(q, 2)` from src/trading_bot/trading_utils.py lines 51-53. -/
def roundDown2 (q : ℚ) : ℚ := ((Int.floor (q * 100) : ℤ) : ℚ) / 100

/-- The pnl computed by `perform_trade` (trading.py line 339):
`(mid - avgPrice)/avgPrice * 100` when `avgPrice > 0`, else `0`. -/
def pnlOf (avgPrice mid : ℚ) : ℚ :=
  if 0 < avgPrice then (mid - avgPrice) / avgPrice * 100 else 0

/-- The `max_size` as derived in `perform_trade` (trading.py lines 318-319):
`trade_size = row.get('trade_size', position)`;
`max_size = row.get('max_size', trade_size)`. -/
def maxSizeOf (row : StrategyRow) (position : ℚ) : ℚ :=
  row.max_size.getD (row.trade_size.getD position)

/-- The per-token inputs of one iteration of the outcome loop of
`perform_trade` (trading.py lines 258-462).  `topBidOpt`/`topAskOpt` are
the (already tick-rounded) outermost book prices from
`get_best_bid_ask_deets`; `bidPrice`/`askPrice` and
`buyAmount`/`sellAmount` are the (tick-rounded) strategy outputs, taken as
parameters so the theorems hold for every strategy variant; `riskOff`
states whether the market's risk-journal file exists with a `sleep_till`
still in the future; `revPos` is `get_position(REVERSE_TOKENS[token])`. -/
structure TokenPassInput where
  market : String
  token : String
  row : StrategyRow
  sellOnly : Bool
  topBidOpt : Option ℚ
  topAskOpt : Option ℚ
  posSize : ℚ
  avgPrice : ℚ
  orders : TokenOrders
  revPos : Position
  bidPrice : ℚ
  askPrice : ℚ
  buyAmount : ℚ
  sellAmount : ℚ
  riskOff : Bool
  now : ℚ

/-- Embeds the per-token body of `perform_trade` (trading.py lines
283-462) as the list of effects it performs on this token:
missing top-of-book skips the token; the stop-loss branch sells the whole
(2-decimal rounded) position at `top_bid` and writes the risk journal
with `sleep_till = now + STOP_LOSS_SLEEP_PERIOD_MINS`, then stops;
sell-only mode sells at the ask price; otherwise the buy branch honours
the risk-off journal, the box-sum guard against the complementary
position (cancelling an existing buy above `MIN_MERGE_SIZE`), and the
open-size cap, falling through to the sell branch. -/
def perform_trade_token (inp : TokenPassInput) : List Effect :=
  match inp.topBidOpt, inp.topAskOpt with
  | some topBid, some topAsk =>
      if pnlOf inp.avgPrice ((topBid + topAsk) / 2) < TCNF.STOP_LOSS_THRESHOLD
          ∧ topAsk - topBid ≤ TCNF.STOP_LOSS_SPREAD_THRESHOLD then
        send_sell_order inp.token inp.orders topBid (roundDown2 inp.posSize)
          ++ [Effect.writeRiskJournal inp.market
                (inp.now + TCNF.STOP_LOSS_SLEEP_PERIOD_MINS)]
      else if inp.sellOnly = true ∧ 0 < inp.sellAmount then
        send_sell_order inp.token inp.orders inp.askPrice inp.sellAmount
      else if roundDown2 inp.posSize < maxSizeOf inp.row (roundDown2 inp.posSize)
          ∧ 0 < inp.buyAmount ∧ inp.row.min_size ≤ inp.buyAmount then
        if inp.riskOff = true then []
        else if inp.row.min_size < inp.revPos.size
            ∧ TCNF.PRICE_PRECISION_LIMIT ≤ inp.bidPrice + inp.revPos.avgPrice then
          if TCNF.MIN_MERGE_SIZE < inp.orders.buy.size
          then [Effect.cancelAllAsset inp.token] else []
        else if roundDown2 inp.posSize + inp.orders.buy.size
            < maxSizeOf inp.row (roundDown2 inp.posSize) then
          send_buy_order inp.token inp.orders inp.bidPrice inp.buyAmount
        else []
      else if 0 < inp.sellAmount then
        send_sell_order inp.token inp.orders inp.askPrice inp.sellAmount
      else []
  | _, _ => []

/-- Concrete market row used in trading-pass witnesses. -/
def egTradeRow : StrategyRow :=
  { min_size := 10, trade_size := some 50, max_size := some 200 }

/-- Concrete stop-loss situation (position 100 at average 0.50, book at
0.46/0.48, pnl -6%, spread 0.02). -/
def egStopInp : TokenPassInput :=
  { market := "M", token := "T1", row := egTradeRow, sellOnly := false,
    topBidOpt := some (46/100), topAskOpt := some (48/100),
    posSize := 100, avgPrice := 1/2,
    orders := { buy := { price := 0, size := 0 }, sell := { price := 0, size := 0 } },
    revPos := { size := 0, avgPrice := 0 },
    bidPrice := 45/100, askPrice := 49/100, buyAmount := 0, sellAmount := 0,
    riskOff := false, now := 1000 }

/-- Concrete box-sum violation (complementary position 50 at average 0.55,
candidate bid 0.46, existing buy of size 25). -/
def egBoxInp : TokenPassInput :=
  { market := "M", token := "T2", row := egTradeRow, sellOnly := false,
    topBidOpt := some (45/100), topAskOpt := some (47/100),
    posSize := 0, avgPrice := 0,
    orders := { buy := { price := 46/100, size := 25 }, sell := { price := 0, size := 0 } },
    revPos := { size := 50, avgPrice := 55/100 },
    bidPrice := 46/100, askPrice := 48/100, buyAmount := 20, sellAmount := 0,
    riskOff := false, now := 0 }

/-- A `maker_orders` entry of a user-stream trade event. -/
structure MakerOrder where
  maker_address : String
  matched_amount : ℚ
  price : ℚ
  outcome : String

/-- The fields of a user-stream trade event consumed by the maker/taker
attribution logic of `process_user_data`. -/
structure TradeEvent where
  asset_id : String
  side : Side
  outcome : String
  size : ℚ
  price : ℚ
  maker_orders : List MakerOrder

/-- The processed attribution of a trade event: which token it is booked
against, the processed side, and the size and price used. -/
structure TradeAttribution where
  token : String
  side : Side
  size : ℚ
  price : ℚ
  isMaker : Bool
deriving DecidableEq

/-- Side flip `'buy' if side == 'sell' else 'sell'` (data_processing.py line 160). -/
def invertSide : Side → Side
  | Side.buy => Side.sell
  | Side.sell => Side.buy

/-- One iteration of the `for maker_order in row['maker_orders']` scan of
the trade branch of `process_user_data`
(src/trading_bot/data_processing.py lines 147-162): an entry whose
`maker_address` is not the agent wallet leaves the running attribution
unchanged; a matching entry takes its `matched_amount` and `price` and
sets the maker flag, then inverts the running side when the maker outcome
equals the event's outcome, and otherwise remaps the running token to the
complement. -/
def maker_scan_step (wallet : String) (reverseTokens : String → String)
    (ev : TradeEvent) (acc : TradeAttribution) (mo : MakerOrder) :
    TradeAttribution :=
  if mo.maker_address = wallet then
    let acc1 :=
      { acc with
        size := mo.matched_amount
        price := mo.price
        isMaker := true }
    if mo.outcome = ev.outcome then
      { acc1 with side := invertSide acc1.side }
    else
      { acc1 with token := reverseTokens acc1.token }
  else acc

/-- Embeds the maker/taker attribution of the trade branch of
`process_user_data` (src/trading_bot/data_processing.py lines 140-170):
scan every `maker_orders` entry with `maker_scan_step`, starting from the
event's own token and side; an event without any matching entry keeps the
event's own size and price.  Wallet addresses are compared lowercased in
the source; the embedding assumes canonical case. -/
def process_trade_attribution (wallet : String)
    (reverseTokens : String → String) (ev : TradeEvent) : TradeAttribution :=
  let afterLoop := ev.maker_orders.foldl
    (maker_scan_step wallet reverseTokens ev)
    { token := ev.asset_id, side := ev.side, size := 0, price := 0,
      isMaker := false }
  if afterLoop.isMaker then afterLoop
  else { afterLoop with size := ev.size, price := ev.price }

/-- Complement map of the concrete two-token market used in examples. -/
def egRev : String → String := fun t => if t = "T1" then "T2" else "T1"

/-- A maker entry of the agent's wallet whose outcome equals the event
outcome below. -/
def egMaker : MakerOrder :=
  { maker_address := "w", matched_amount := 10, price := 2/5, outcome := "Yes" }

/-- A maker entry of some other participant's wallet. -/
def egOtherMaker : MakerOrder :=
  { maker_address := "z", matched_amount := 5, price := 1/4, outcome := "No" }

/-- A trade event on token T1 where the agent is the maker and the maker
outcome equals the event outcome. -/
def egTradeEvent : TradeEvent :=
  { asset_id := "T1", side := Side.buy, outcome := "Yes", size := 7,
    price := 1/2, maker_orders := [egMaker] }

/-- A trade event whose `maker_orders` lists another participant's entry
alongside the agent's single matching entry. -/
def egTradeEventMulti : TradeEvent :=
  { asset_id := "T1", side := Side.buy, outcome := "Yes", size := 7,
    price := 1/2, maker_orders := [egOtherMaker, egMaker] }

/-- A token's entry in `global_state.orders`: each side's record may be
absent (the Python dict may lack that key). -/
structure TokenOrderEntries where
  buy : Option OrderRec
  sell : Option OrderRec
deriving DecidableEq

/-- Embeds `set_order(token, side, size, price)` from
src/trading_bot/data_utils.py lines 232-243: `global_state.orders[token]`
is replaced by a freshly built dict holding only the given side. -/
def set_order (orders : String → Option TokenOrderEntries) (token : String)
    (side : Side) (size price : ℚ) : String → Option TokenOrderEntries :=
  fun t =>
    if t = token then
      some (match side with
        | Side.buy =>
            { buy := some { price := price, size := size }, sell := none }
        | Side.sell =>
            { buy := none, sell := some { price := price, size := size } })
    else orders t

/-- Embeds the read view of `get_order(token)` from
src/trading_bot/data_utils.py lines 218-230: missing entries read as the
zero order `{price: 0, size: 0}`. -/
def get_order (orders : String → Option TokenOrderEntries) (token : String) :
    OrderRec × OrderRec :=
  match orders token with
  | some e => (e.buy.getD { price := 0, size := 0 },
               e.sell.getD { price := 0, size := 0 })
  | none => ({ price := 0, size := 0 }, { price := 0, size := 0 })

/-- The order lifecycle event types of the user stream. -/
inductive OrderEventType where
  | PLACEMENT
  | UPDATE
  | CANCELLATION

/-- The open-size adjustment of the order branch of `process_user_data`
(data_processing.py lines 229-234): plus `original_size` on PLACEMENT,
minus `size_matched` on UPDATE, minus `original_size` on CANCELLATION. -/
def adjustedOpenSize (prev original_size size_matched : ℚ) :
    OrderEventType → ℚ
  | OrderEventType.PLACEMENT => prev + original_size
  | OrderEventType.UPDATE => prev - size_matched
  | OrderEventType.CANCELLATION => prev - original_size

/-- Embeds the order branch of `process_user_data`
(src/trading_bot/data_processing.py lines 218-253), its effect on
`global_state.orders`: read the existing open size of `(token, side)`
(0 when anything is missing, via the `try`/`except`), adjust it by the
event type, clamp at zero, and store through `set_order`. -/
def process_order_event (orders : String → Option TokenOrderEntries)
    (token : String) (side : Side) (etype : OrderEventType)
    (original_size size_matched price : ℚ) :
    String → Option TokenOrderEntries :=
  let prev : ℚ :=
    match orders token with
    | some e =>
        match side with
        | Side.buy => (e.buy.map OrderRec.size).getD 0
        | Side.sell => (e.sell.map OrderRec.size).getD 0
    | none => 0
  set_order orders token side
    (max (adjustedOpenSize prev original_size size_matched etype) 0) price

/-- A concrete orders store with both a buy and a sell resting on token
T. -/
def egOrders : String → Option TokenOrderEntries :=
  fun t =>
    if t = "T" then
      some { buy := some { price := 2/5, size := 100 },
             sell := some { price := 3/5, size := 50 } }
    else none

/-- Insertion into a price-descending list (pandas
`sort_values('price', ascending=False)`). -/
def insertDesc (e : ℚ × ℚ) : List (ℚ × ℚ) → List (ℚ × ℚ)
  | [] => [e]
  | x :: t => if x.1 ≤ e.1 then e :: x :: t else x :: insertDesc e t

/-- Sort by price descending. -/
def sortDesc (l : List (ℚ × ℚ)) : List (ℚ × ℚ) := l.foldr insertDesc []

/-- Insertion into a price-ascending list (pandas
`sort_values('price', ascending=True)`). -/
def insertAsc (e : ℚ × ℚ) : List (ℚ × ℚ) → List (ℚ × ℚ)
  | [] => [e]
  | x :: t => if e.1 ≤ x.1 then e :: x :: t else x :: insertAsc e t

/-- Sort by price ascending. -/
def sortAsc (l : List (ℚ × ℚ)) : List (ℚ × ℚ) := l.foldr insertAsc []

/-- Computes `frame['price'].min()` with a default for the empty frame. -/
def priceMin (l : List (ℚ × ℚ)) (dflt : ℚ) : ℚ :=
  match l with
  | [] => dflt
  | e :: t => (t.map Prod.fst).foldl min e.1

/-- Computes `frame['price'].max()` with a default for the empty frame. -/
def priceMax (l : List (ℚ × ℚ)) (dflt : ℚ) : ℚ :=
  match l with
  | [] => dflt
  | e :: t => (t.map Prod.fst).foldl max e.1

/-- Computes `frame['size'].sum()`. -/
def sumSizes (l : List (ℚ × ℚ)) : ℚ := (l.map Prod.snd).sum

/-- Embeds `calculate_market_imbalance(bids_df, asks_df, midpoint)` from
src/poly_utils/market_utils.py lines 3-25: the window is the intersection
of the 10-level window and the percentage window of half-width
`min(mid, 1-mid)·PCT/2`; the imbalance is `(Σbids − Σasks)/(Σbids + Σasks)`
over the levels inside the window.  The division is modelled as `Option`:
`none` stands for the invalid value (float NaN) that the numpy division
`0.0/0.0` produces when the window holds no size. -/
def calculate_market_imbalance (bids asks : List (ℚ × ℚ))
    (midpoint : ℚ) : Option ℚ :=
  let bidsSorted := sortDesc (bids.filter (fun e => e.1 ≤ midpoint))
  let levelWindowLower :=
    priceMin (bidsSorted.take TCNF.MARKET_DEPTH_CALC_LEVELS) midpoint
  let asksSorted := sortAsc (asks.filter (fun e => midpoint ≤ e.1))
  let levelWindowUpper :=
    priceMax (asksSorted.take TCNF.MARKET_DEPTH_CALC_LEVELS) midpoint
  let spreadSize := min midpoint (1 - midpoint) * TCNF.MARKET_DEPTH_CALC_PCT
  let pctWindowLower := midpoint - spreadSize / 2
  let pctWindowUpper := midpoint + spreadSize / 2
  let windowLower := max levelWindowLower pctWindowLower
  let windowUpper := min levelWindowUpper pctWindowUpper
  let bidsSizeInWindow :=
    sumSizes (bids.filter (fun e => windowLower ≤ e.1 ∧ e.1 ≤ windowUpper))
  let asksSizeInWindow :=
    sumSizes (asks.filter (fun e => windowLower ≤ e.1 ∧ e.1 ≤ windowUpper))
  if bidsSizeInWindow + asksSizeInWindow = 0 then none
  else some ((bidsSizeInWindow - asksSizeInWindow)
      / (bidsSizeInWindow + asksSizeInWindow))

/-- Embeds `OrderBook.get_imbalance` together with
`OrderBook._get_order_book_dataframes`
(src/trading_bot/order_books.py lines 117-162): the midpoint is the mean
of the best bid (default 0 on an empty side) and best ask (default 1) of
the self-excluded book, then `calculate_market_imbalance` runs on it.
The `except` branch maps a raised exception to `0.0`, but the numpy
division `0.0/0.0` raises nothing -- it silently produces NaN (`none`
here), which the `try`/`except` passes through to the caller. -/
def get_imbalance (bids asks : List (ℚ × ℚ)) : Option ℚ :=
  calculate_market_imbalance bids asks
    ((priceMax bids 0 + priceMin asks 1) / 2)

/-- C3 (position accounting): a buy of size `q > 0` at price `p` onto an
existing position `(n, a)` with `n > 0` blends the average price to
`(n·a + q·p)/(n+q)` and the size to `n+q`; a buy onto size 0 sets
`avgPrice = p`; a sell keeps `avgPrice` and decreases the size by the sold
quantity. -/
theorem set_position_accounting (st : PosState) (now : ℚ) (token : String)
    (q p n a : ℚ) (hrec : st.positions token = some { size := n, avgPrice := a }) :
    (0 < q → 0 < n →
      (set_position st now token Side.buy q p).positions token
        = some { size := n + q, avgPrice := (n * a + q * p) / (n + q) })
    ∧ (0 < q → n = 0 →
      (set_position st now token Side.buy q p).positions token
        = some { size := q, avgPrice := p })
    ∧ (0 ≤ q →
      (set_position st now token Side.sell q p).positions token
        = some { size := n - q, avgPrice := a }) := by
  refine ⟨fun hq hn => ?_, fun hq hn => ?_, fun hq => ?_⟩
  · have hn0 : n ≠ 0 := ne_of_gt hn
    simp [set_position, hrec, hq, hn0]
    ring_nf
  · simp [set_position, hrec, hq, hn]
  · have h2 : ¬ (0 < -q) := by linarith
    simp [set_position, hrec, h2]
    ring_nf

/-- Witness for `set_position_accounting` on a concrete state. -/
theorem set_position_accounting_witness :
    (set_position egPosState 0 "T" Side.buy 2 (3/4)).positions "T"
      = some { size := 2 + 2, avgPrice := (2 * (1/2) + 2 * (3/4)) / (2 + 2) } := by
  exact (set_position_accounting egPosState 0 "T" 2 (3/4) 2 (1/2) (by norm_num [egPosState])).1
    (by norm_num) (by norm_num)

/-- C8 (force-sell sizing): with `force_sell`, `get_buy_sell_amount` returns
a zero buy amount and a sell amount that never exceeds the (non-negative)
position, so the strategy never offers to sell more than it holds. -/
theorem get_buy_sell_amount_force_sell (position : ℚ) (row : StrategyRow)
    (hpos : 0 ≤ position) :
    (get_buy_sell_amount position row true).1 = 0
    ∧ (get_buy_sell_amount position row true).2 ≤ position := by
  constructor
  · simp [get_buy_sell_amount]
  · simp only [get_buy_sell_amount]
    split_ifs <;> linarith

/-- Witness for `get_buy_sell_amount_force_sell`: position 8 with
min_size 10 is rounded up to 10 and then capped back at the position. -/
theorem get_buy_sell_amount_force_sell_witness :
    (get_buy_sell_amount 8 egRowSizing true).1 = 0
    ∧ (get_buy_sell_amount 8 egRowSizing true).2 ≤ 8 :=
  get_buy_sell_amount_force_sell 8 egRowSizing (by norm_num)

end PolyMaker

namespace PolyMaker

theorem update_positions_row_performing (now : ℚ) (b : Bool) (st : PosState)
    (row : ServerPos) :
    (update_positions_row now b st row).performing = st.performing ∧
    (update_positions_row now b st row).lastTradeUpdate = st.lastTradeUpdate := by
  constructor <;> rfl

theorem update_positions_row_frame (now : ℚ) (b : Bool) (st : PosState)
    (row : ServerPos) (t : String) (ht : t ≠ row.asset) :
    (update_positions_row now b st row).positions t = st.positions t := by
  simp [update_positions_row, ht]

theorem update_positions_frame (now : ℚ) (b : Bool) (rows : List ServerPos)
    (st : PosState) (t : String) (ht : t ∉ rows.map ServerPos.asset) :
    (update_positions now b st rows).positions t = st.positions t := by
  induction rows generalizing st with
  | nil => rfl
  | cons r rest ih =>
      simp only [List.map_cons, List.mem_cons, not_or] at ht
      simpa [update_positions] using
        (by
          have h1 := update_positions_row_frame now b st r t ht.1
          have h2 := ih (update_positions_row now b st r) ht.2
          simpa [update_positions] using h2.trans h1)

theorem update_positions_performing (now : ℚ) (b : Bool)
    (rows : List ServerPos) (st : PosState) :
    (update_positions now b st rows).performing = st.performing ∧
    (update_positions now b st rows).lastTradeUpdate = st.lastTradeUpdate := by
  induction rows generalizing st with
  | nil => exact ⟨rfl, rfl⟩
  | cons r rest ih =>
      have h := ih (update_positions_row now b st r)
      simpa [update_positions] using h

theorem update_positions_row_avg_only (now : ℚ) (st : PosState)
    (row : ServerPos) :
    (update_positions_row now true st row).positions row.asset
      = some { size := if sizeRefreshAllowed st now row.asset
                       then row.size
                       else ((st.positions row.asset).getD
                              { size := 0, avgPrice := 0 }).size,
               avgPrice := row.avgPrice } := by
  simp only [update_positions_row, sizeRefreshAllowed]
  have hb : ¬ ((true : Bool) = false) := by decide
  simp only [if_neg hb, if_pos rfl]
  by_cases h1 : st.performing (row.asset ++ "_buy") = []
  · by_cases h2 : st.performing (row.asset ++ "_sell") = []
    · simp only [h1, h2]
      cases hlt : st.lastTradeUpdate row.asset with
      | none => simp
      | some t =>
          by_cases h3 : now - t < 5
          · have h4 : ¬ (5 ≤ now - t) := by linarith
            simp [h3, h4]
          · have h4 : (5 : ℚ) ≤ now - t := by linarith
            simp [h3, h4]
    · simp [h1, h2]
  · simp [h1]

/-- C10 (avg-only reconciliation frame): for every asset reported by the
server (each asset appearing once), `update_positions` in avg-only mode
always overwrites the local `avgPrice` with the server value, and
overwrites the local `size` exactly when both performing sets of the asset
are empty and the last local trade update is absent or at least 5 seconds
old; otherwise the local size is left unchanged. -/
theorem update_positions_avg_only (now : ℚ) (st : PosState)
    (rows : List ServerPos) (row : ServerPos) (hmem : row ∈ rows)
    (hnodup : (rows.map ServerPos.asset).Nodup) :
    (update_positions now true st rows).positions row.asset
      = some { size := if sizeRefreshAllowed st now row.asset
                       then row.size
                       else ((st.positions row.asset).getD
                              { size := 0, avgPrice := 0 }).size,
               avgPrice := row.avgPrice } := by
  induction rows generalizing st with
  | nil => cases hmem
  | cons r rest ih =>
      simp only [List.map_cons, List.nodup_cons] at hnodup
      rcases List.mem_cons.mp hmem with h | h
      · subst h
        have hnot : row.asset ∉ rest.map ServerPos.asset := hnodup.1
        have hframe := update_positions_frame now true rest
          (update_positions_row now true st row) row.asset hnot
        have hrow := update_positions_row_avg_only now st row
        simpa [update_positions] using hframe.trans hrow
      · have hne : row.asset ≠ r.asset := by
          intro he
          exact hnodup.1 (he ▸ List.mem_map_of_mem ServerPos.asset h)
        have ih1 := ih (update_positions_row now true st r) h hnodup.2
        have hperf := update_positions_row_performing now true st r
        have hfr := update_positions_row_frame now true st r row.asset hne
        have hsra : sizeRefreshAllowed (update_positions_row now true st r) now row.asset
            = sizeRefreshAllowed st now row.asset := by
          simp [sizeRefreshAllowed, hperf.1, hperf.2]
        have hstep : update_positions now true st (r :: rest)
            = update_positions now true (update_positions_row now true st r) rest := rfl
        rw [hstep, ih1, hsra, hfr]

/-- Witness for `update_positions_avg_only`: a pending buy trade blocks the
size overwrite while the average price is still refreshed. -/
theorem update_positions_avg_only_witness :
    (update_positions 100 true egPendingState
        [{ asset := "T", size := 9, avgPrice := 3/5 }]).positions "T"
      = some { size := if sizeRefreshAllowed egPendingState 100 "T" then 9 else 2,
               avgPrice := 3/5 } := by
  have h := update_positions_avg_only 100 egPendingState
    [{ asset := "T", size := 9, avgPrice := 3/5 }]
    { asset := "T", size := 9, avgPrice := 3/5 }
    (by simp) (by simp)
  simpa [egPendingState] using h

theorem sched_invariant (s : SchedState) (hs : SchedReach s) (m : String) :
    s.running m ≤ 1 ∧ (0 < s.running m → m ∈ s.inflight) := by
  induction hs with
  | init oif => exact ⟨by simp, by simp⟩
  | schedule s0 m0 _ ih =>
      by_cases h1 : m0 ∈ s0.inflight
      · simpa [schedule_task, h1] using ih
      · by_cases h2 : 0 < (get_orders_in_flight s0 m0).length
        · simpa [schedule_task, h1, h2] using ih
        · simp only [schedule_task, if_neg h1, if_neg h2]
          by_cases hm : m = m0
          · subst hm
            have hz : s0.running m = 0 := by
              by_contra hne
              exact h1 (ih.2 (Nat.pos_of_ne_zero hne))
            constructor
            · simp [hz]
            · intro _
              simp
          · constructor
            · simpa [hm] using ih.1
            · intro hpos
              simp only [if_neg hm] at hpos
              exact Finset.mem_insert_of_mem (ih.2 hpos)
  | finish s0 m0 _ _ ih =>
      by_cases hm : m = m0
      · subst hm
        have h1 := ih.1
        refine ⟨?_, ?_⟩
        · simp [finish_task]
          omega
        · intro hpos
          simp [finish_task] at hpos
          omega
      · refine ⟨?_, ?_⟩
        · simpa [finish_task, hm] using ih.1
        · intro hpos
          simp only [finish_task, if_neg hm] at hpos
          exact Finset.mem_erase.mpr ⟨hm, ih.2 hpos⟩
  | ordersChange s0 oif _ ih => exact ih

/-- C2 (scheduler single-flight and in-flight blocking): in every reachable
scheduler state, at most one trading pass per market is running;
`schedule_task` on a market already scheduled or with a non-empty in-flight
order set changes nothing and spawns nothing; and completing a pass
(normally or by exception) removes the market from the scheduled set. -/
theorem scheduler_single_flight (s : SchedState) (m : String)
    (hs : SchedReach s) :
    s.running m ≤ 1
    ∧ ((m ∈ s.inflight ∨ get_orders_in_flight s m ≠ []) → schedule_task s m = s)
    ∧ m ∉ (finish_task s m).inflight := by
  refine ⟨(sched_invariant s hs m).1, ?_, ?_⟩
  · rintro (h | h)
    · simp [schedule_task, h]
    · have hlen : 0 < (get_orders_in_flight s m).length :=
        List.length_pos.mpr h
      by_cases h1 : m ∈ s.inflight
      · simp [schedule_task, h1]
      · simp [schedule_task, h1, hlen]
  · simp [finish_task]

/-- Witness for `scheduler_single_flight` on a concrete reachable state:
one scheduled pass on market `"m"`. -/
theorem scheduler_single_flight_witness :
    (schedule_task egSchedInit "m").running "m" ≤ 1
    ∧ schedule_task (schedule_task egSchedInit "m") "m"
      = schedule_task egSchedInit "m" := by
  have hreach : SchedReach (schedule_task egSchedInit "m") :=
    SchedReach.schedule _ "m" (SchedReach.init (fun _ => []))
  have h := scheduler_single_flight _ "m" hreach
  refine ⟨h.1, h.2.1 (Or.inl ?_)⟩
  simp [schedule_task, get_orders_in_flight, egSchedInit]

theorem dget_dinsert (l : List (ℚ × ℚ)) (p s q : ℚ) :
    dget (dinsert l p s) q = if q = p then some s else dget l q := by
  induction l with
  | nil =>
      simp only [dinsert, dget]
      exact if_congr eq_comm rfl rfl
  | cons e t ih =>
      simp only [dinsert]
      by_cases he : e.1 = p
      · rw [if_pos he]
        simp only [dget]
        by_cases hq : q = p
        · rw [if_pos hq.symm, if_pos hq]
        · rw [if_neg (fun h => hq h.symm), if_neg hq,
            if_neg (show ¬ e.1 = q from fun h => hq (he ▸ h).symm)]
      · rw [if_neg he]
        simp only [dget, ih]
        by_cases hq1 : e.1 = q
        · have hqp : ¬ q = p := fun h => he (hq1.trans h)
          rw [if_pos hq1, if_neg hqp, if_pos hq1]
        · rw [if_neg hq1]
          by_cases hq : q = p
          · rw [if_pos hq, if_pos hq]
          · rw [if_neg hq, if_neg hq, if_neg hq1]

theorem dget_none_of_not_mem (l : List (ℚ × ℚ)) (q : ℚ)
    (h : q ∉ keysOf l) : dget l q = none := by
  induction l with
  | nil => rfl
  | cons e t ih =>
      have h1 : ¬ e.1 = q := fun he => h (by simp [keysOf, he])
      have h2 : q ∉ keysOf t := fun hm => h (by
        simp only [keysOf, List.map_cons, List.mem_cons]
        exact Or.inr hm)
      simp only [dget, if_neg h1]
      exact ih h2

theorem keysOf_dinsert_subset (l : List (ℚ × ℚ)) (p s q : ℚ)
    (h : q ∈ keysOf (dinsert l p s)) : q ∈ keysOf l ∨ q = p := by
  induction l with
  | nil => simpa [dinsert, keysOf] using h
  | cons e t ih =>
      by_cases he : e.1 = p
      · simp only [dinsert, if_pos he, keysOf, List.map_cons, List.mem_cons] at h ⊢
        rcases h with h | h
        · right; exact h
        · left; right; exact h
      · simp only [dinsert, if_neg he, keysOf, List.map_cons, List.mem_cons] at h ⊢
        rcases h with h | h
        · left; left; exact h
        · rcases ih (by simpa [keysOf] using h) with h2 | h2
          · left; right; simpa [keysOf] using h2
          · right; exact h2

theorem nodupKeys_dinsert (l : List (ℚ × ℚ)) (p s : ℚ)
    (h : NodupKeys l) : NodupKeys (dinsert l p s) := by
  induction l with
  | nil => simp [dinsert, NodupKeys, keysOf]
  | cons e t ih =>
      simp only [NodupKeys, keysOf, List.map_cons, List.nodup_cons] at h
      by_cases he : e.1 = p
      · simp only [dinsert, if_pos he, NodupKeys, keysOf, List.map_cons,
          List.nodup_cons]
        exact ⟨he ▸ h.1, h.2⟩
      · simp only [dinsert, if_neg he, NodupKeys, keysOf, List.map_cons,
          List.nodup_cons]
        refine ⟨?_, ih (by simpa [NodupKeys, keysOf] using h.2)⟩
        intro hmem
        rcases keysOf_dinsert_subset t p s e.1 (by simpa [keysOf] using hmem)
          with h2 | h2
        · exact h.1 (by simpa [keysOf] using h2)
        · exact he h2

theorem derase_sublist (l : List (ℚ × ℚ)) (p : ℚ) :
    (derase l p).Sublist l := by
  induction l with
  | nil => simp [derase]
  | cons e t ih =>
      by_cases he : e.1 = p
      · simp only [derase, if_pos he]
        exact List.sublist_cons_self e t
      · simp only [derase, if_neg he]
        exact ih.cons₂ e

theorem nodupKeys_derase (l : List (ℚ × ℚ)) (p : ℚ)
    (h : NodupKeys l) : NodupKeys (derase l p) :=
  ((derase_sublist l p).map Prod.fst).nodup h

theorem keys3_dinsert (l : List (ℚ × ℚ)) (p s : ℚ) (hl : Keys3 l)
    (hp : round3 p = p) : Keys3 (dinsert l p s) := by
  induction l with
  | nil =>
      intro e he
      simp only [dinsert, List.mem_singleton] at he
      simpa [he] using hp
  | cons e t ih =>
      intro f hf
      by_cases he : e.1 = p
      · simp only [dinsert, if_pos he, List.mem_cons] at hf
        rcases hf with hf | hf
        · simpa [hf] using hp
        · exact hl f (List.mem_cons_of_mem e hf)
      · simp only [dinsert, if_neg he, List.mem_cons] at hf
        rcases hf with hf | hf
        · exact hf ▸ hl e (List.mem_cons_self e t)
        · exact ih (fun g hg => hl g (List.mem_cons_of_mem e hg)) f hf

theorem keys3_derase (l : List (ℚ × ℚ)) (p : ℚ) (hl : Keys3 l) :
    Keys3 (derase l p) :=
  fun e he => hl e ((derase_sublist l p).mem he)

theorem nodupKeys_foldl_dinsert (key : ℚ → ℚ)
    (entries : List (ℚ × ℚ)) (acc : List (ℚ × ℚ)) (hacc : NodupKeys acc) :
    NodupKeys (entries.foldl (fun a e => dinsert a (key e.1) e.2) acc) := by
  induction entries generalizing acc with
  | nil => exact hacc
  | cons e t ih => exact ih _ (nodupKeys_dinsert acc (key e.1) e.2 hacc)

theorem nodupKeys_buildSide (key : ℚ → ℚ) (entries : List (ℚ × ℚ)) :
    NodupKeys (buildSide key entries) :=
  nodupKeys_foldl_dinsert key entries [] (by simp [NodupKeys, keysOf])

theorem nodupKeys_syncSide (g : ℚ → ℚ) (src : List (ℚ × ℚ)) :
    NodupKeys (syncSide g src) :=
  nodupKeys_foldl_dinsert g src [] (by simp [NodupKeys, keysOf])

theorem keys3_foldl_dinsert (key : ℚ → ℚ)
    (hkey : ∀ x, round3 (key x) = key x) (entries : List (ℚ × ℚ))
    (acc : List (ℚ × ℚ)) (hacc : Keys3 acc) :
    Keys3 (entries.foldl (fun a e => dinsert a (key e.1) e.2) acc) := by
  induction entries generalizing acc with
  | nil => exact hacc
  | cons e t ih =>
      exact ih _ (keys3_dinsert acc (key e.1) e.2 hacc (hkey e.1))

theorem round3_idem (q : ℚ) : round3 (round3 q) = round3 q := by
  unfold round3
  have h : (1000 : ℚ) * (((round (1000 * q) : ℤ) : ℚ) / 1000)
      = ((round (1000 * q) : ℤ) : ℚ) := by
    field_simp
  rw [h, round_intCast]

theorem round3_one_sub (p : ℚ) (hp : round3 p = p) :
    round3 (1 - p) = 1 - p := by
  have h := hp
  unfold round3 at h
  field_simp at h
  unfold round3
  have h2 : (1000 : ℚ) * (1 - p) = (((1000 - round (1000 * p) : ℤ)) : ℚ) := by
    push_cast
    linarith
  rw [h2, round_intCast]
  push_cast
  linarith

theorem dget_foldl_sync (g : ℚ → ℚ) (src acc : List (ℚ × ℚ)) (q : ℚ)
    (hg : ∀ e ∈ src, g e.1 = 1 - e.1) (hnd : NodupKeys src) :
    dget (src.foldl (fun a e => dinsert a (g e.1) e.2) acc) q
      = oor (dget src (1 - q)) (dget acc q) := by
  induction src generalizing acc with
  | nil => simp [dget, oor]
  | cons e t ih =>
      simp only [NodupKeys, keysOf, List.map_cons, List.nodup_cons] at hnd
      have hge : g e.1 = 1 - e.1 := hg e (List.mem_cons_self e t)
      have hstep : (e :: t).foldl (fun a f => dinsert a (g f.1) f.2) acc
          = t.foldl (fun a f => dinsert a (g f.1) f.2)
              (dinsert acc (g e.1) e.2) := rfl
      rw [hstep, ih (dinsert acc (g e.1) e.2)
        (fun f hf => hg f (List.mem_cons_of_mem e hf))
        (by simpa [NodupKeys, keysOf] using hnd.2)]
      by_cases hcase : e.1 = 1 - q
      · have hq : q = g e.1 := by rw [hge, hcase]; ring
        have hnone : dget t (1 - q) = none := by
          apply dget_none_of_not_mem
          rw [← hcase]
          simpa [keysOf] using hnd.1
        simp only [dget, if_pos hcase, hnone, dget_dinsert, if_pos hq, oor]
      · have hq : ¬ q = g e.1 := by
          rw [hge]
          intro h
          exact hcase (by linarith [h])
        simp only [dget, if_neg hcase, dget_dinsert, if_neg hq]

theorem dget_syncSide (g : ℚ → ℚ) (src : List (ℚ × ℚ)) (q : ℚ)
    (hg : ∀ e ∈ src, g e.1 = 1 - e.1) (hnd : NodupKeys src) :
    dget (syncSide g src) q = dget src (1 - q) := by
  rw [syncSide, dget_foldl_sync g src [] q hg hnd]
  cases dget src (1 - q) <;> rfl

theorem one_sub_one_sub (p : ℚ) : 1 - (1 - p) = p := by ring

theorem mirror_pair_dp (b : BookL) (hb : NodupKeys b.bids)
    (ha : NodupKeys b.asks) :
    MirrorInv { book1 := b, book2 := sync_order_book_data_for_reverse_token b } := by
  intro p
  have hbids : ∀ q, dget (sync_order_book_data_for_reverse_token b).bids q
      = dget b.asks (1 - q) :=
    fun q => dget_syncSide (fun r => 1 - r) b.asks q (fun e _ => rfl) ha
  have hasks : ∀ q, dget (sync_order_book_data_for_reverse_token b).asks q
      = dget b.bids (1 - q) :=
    fun q => dget_syncSide (fun r => 1 - r) b.bids q (fun e _ => rfl) hb
  refine ⟨?_, ?_, ?_, ?_⟩
  · rw [hbids (1 - p), one_sub_one_sub]
  · rw [hasks (1 - p), one_sub_one_sub]
  · exact hasks p
  · exact hbids p

theorem mirror_pair_dp_rev (b : BookL) (hb : NodupKeys b.bids)
    (ha : NodupKeys b.asks) :
    MirrorInv { book1 := sync_order_book_data_for_reverse_token b, book2 := b } := by
  intro p
  have hbids : ∀ q, dget (sync_order_book_data_for_reverse_token b).bids q
      = dget b.asks (1 - q) :=
    fun q => dget_syncSide (fun r => 1 - r) b.asks q (fun e _ => rfl) ha
  have hasks : ∀ q, dget (sync_order_book_data_for_reverse_token b).asks q
      = dget b.bids (1 - q) :=
    fun q => dget_syncSide (fun r => 1 - r) b.bids q (fun e _ => rfl) hb
  refine ⟨?_, ?_, ?_, ?_⟩
  · exact hasks p
  · exact hbids p
  · rw [hbids (1 - p), one_sub_one_sub]
  · rw [hasks (1 - p), one_sub_one_sub]

theorem mirror_pair_ob (b : BookL) (hb : NodupKeys b.bids)
    (ha : NodupKeys b.asks) (h3b : Keys3 b.bids) (h3a : Keys3 b.asks) :
    MirrorInv { book1 := b, book2 := OrderBook_sync_reverse_token b } := by
  intro p
  have hbids : ∀ q, dget (OrderBook_sync_reverse_token b).bids q
      = dget b.asks (1 - q) :=
    fun q => dget_syncSide (fun r => round3 (1 - r)) b.asks q
      (fun e he => round3_one_sub e.1 (h3a e he)) ha
  have hasks : ∀ q, dget (OrderBook_sync_reverse_token b).asks q
      = dget b.bids (1 - q) :=
    fun q => dget_syncSide (fun r => round3 (1 - r)) b.bids q
      (fun e he => round3_one_sub e.1 (h3b e he)) hb
  refine ⟨?_, ?_, ?_, ?_⟩
  · rw [hbids (1 - p), one_sub_one_sub]
  · rw [hasks (1 - p), one_sub_one_sub]
  · exact hasks p
  · exact hbids p

theorem mirror_pair_ob_rev (b : BookL) (hb : NodupKeys b.bids)
    (ha : NodupKeys b.asks) (h3b : Keys3 b.bids) (h3a : Keys3 b.asks) :
    MirrorInv { book1 := OrderBook_sync_reverse_token b, book2 := b } := by
  intro p
  have hbids : ∀ q, dget (OrderBook_sync_reverse_token b).bids q
      = dget b.asks (1 - q) :=
    fun q => dget_syncSide (fun r => round3 (1 - r)) b.asks q
      (fun e he => round3_one_sub e.1 (h3a e he)) ha
  have hasks : ∀ q, dget (OrderBook_sync_reverse_token b).asks q
      = dget b.bids (1 - q) :=
    fun q => dget_syncSide (fun r => round3 (1 - r)) b.bids q
      (fun e he => round3_one_sub e.1 (h3b e he)) hb
  refine ⟨?_, ?_, ?_, ?_⟩
  · exact hasks p
  · exact hbids p
  · rw [hbids (1 - p), one_sub_one_sub]
  · rw [hasks (1 - p), one_sub_one_sub]

theorem nodup_process_price_change (b : BookL) (side : BookSide)
    (price size : ℚ) (hb : NodupKeys b.bids) (ha : NodupKeys b.asks) :
    NodupKeys (process_price_change b side price size).bids
    ∧ NodupKeys (process_price_change b side price size).asks := by
  cases side <;> by_cases hs : size = 0 <;>
    simp [process_price_change, hs, nodupKeys_dinsert, nodupKeys_derase,
      hb, ha]

theorem nodup_ob_price_change (b : BookL) (side : BookSide)
    (price size : ℚ) (hb : NodupKeys b.bids) (ha : NodupKeys b.asks) :
    NodupKeys (OrderBook_process_price_change b side price size).bids
    ∧ NodupKeys (OrderBook_process_price_change b side price size).asks := by
  cases side <;> by_cases hs : size = 0 <;>
    simp [OrderBook_process_price_change, hs, nodupKeys_dinsert,
      nodupKeys_derase, hb, ha]

theorem keys3_ob_price_change (b : BookL) (side : BookSide)
    (price size : ℚ) (hb : Keys3 b.bids) (ha : Keys3 b.asks) :
    Keys3 (OrderBook_process_price_change b side price size).bids
    ∧ Keys3 (OrderBook_process_price_change b side price size).asks := by
  cases side <;> by_cases hs : size = 0 <;>
    simp [OrderBook_process_price_change, hs] <;>
    exact ⟨by first
        | exact keys3_dinsert _ _ _ hb (round3_idem price)
        | exact keys3_derase _ _ hb
        | exact hb,
      by first
        | exact keys3_dinsert _ _ _ ha (round3_idem price)
        | exact keys3_derase _ _ ha
        | exact ha⟩

theorem keys3_buildSide_round3 (entries : List (ℚ × ℚ)) :
    Keys3 (buildSide round3 entries) :=
  keys3_foldl_dinsert round3 round3_idem entries [] (by intro e he; cases he)

theorem keys3_syncSide_round3 (src : List (ℚ × ℚ)) :
    Keys3 (syncSide (fun p => round3 (1 - p)) src) :=
  keys3_foldl_dinsert (fun p => round3 (1 - p))
    (fun x => round3_idem (1 - x)) src [] (by intro e he; cases he)

theorem applyMutationDP_ok (st : PairBooks) (m : BookMutation)
    (h : NodupKeys st.book1.bids ∧ NodupKeys st.book1.asks
       ∧ NodupKeys st.book2.bids ∧ NodupKeys st.book2.asks) :
    (NodupKeys (applyMutationDP st m).book1.bids
      ∧ NodupKeys (applyMutationDP st m).book1.asks
      ∧ NodupKeys (applyMutationDP st m).book2.bids
      ∧ NodupKeys (applyMutationDP st m).book2.asks)
    ∧ MirrorInv (applyMutationDP st m) := by
  obtain ⟨h1b, h1a, h2b, h2a⟩ := h
  cases m with
  | snapshot onFirst bids asks =>
      have hb : NodupKeys (process_book_data bids asks).bids :=
        nodupKeys_buildSide (fun p => p) bids
      have ha : NodupKeys (process_book_data bids asks).asks :=
        nodupKeys_buildSide (fun p => p) asks
      have hsb : NodupKeys
          (sync_order_book_data_for_reverse_token (process_book_data bids asks)).bids :=
        nodupKeys_syncSide (fun p => 1 - p) (process_book_data bids asks).asks
      have hsa : NodupKeys
          (sync_order_book_data_for_reverse_token (process_book_data bids asks)).asks :=
        nodupKeys_syncSide (fun p => 1 - p) (process_book_data bids asks).bids
      cases onFirst
      · exact ⟨⟨hsb, hsa, hb, ha⟩, mirror_pair_dp_rev _ hb ha⟩
      · exact ⟨⟨hb, ha, hsb, hsa⟩, mirror_pair_dp _ hb ha⟩
  | priceChange onFirst side price size =>
      cases onFirst
      · have hpc := nodup_process_price_change st.book2 side price size h2b h2a
        have hsb : NodupKeys (sync_order_book_data_for_reverse_token
            (process_price_change st.book2 side price size)).bids :=
          nodupKeys_syncSide (fun p => 1 - p)
            (process_price_change st.book2 side price size).asks
        have hsa : NodupKeys (sync_order_book_data_for_reverse_token
            (process_price_change st.book2 side price size)).asks :=
          nodupKeys_syncSide (fun p => 1 - p)
            (process_price_change st.book2 side price size).bids
        exact ⟨⟨hsb, hsa, hpc.1, hpc.2⟩, mirror_pair_dp_rev _ hpc.1 hpc.2⟩
      · have hpc := nodup_process_price_change st.book1 side price size h1b h1a
        have hsb : NodupKeys (sync_order_book_data_for_reverse_token
            (process_price_change st.book1 side price size)).bids :=
          nodupKeys_syncSide (fun p => 1 - p)
            (process_price_change st.book1 side price size).asks
        have hsa : NodupKeys (sync_order_book_data_for_reverse_token
            (process_price_change st.book1 side price size)).asks :=
          nodupKeys_syncSide (fun p => 1 - p)
            (process_price_change st.book1 side price size).bids
        exact ⟨⟨hpc.1, hpc.2, hsb, hsa⟩, mirror_pair_dp _ hpc.1 hpc.2⟩

theorem applyMutationOB_ok (st : PairBooks) (m : BookMutation)
    (h : (NodupKeys st.book1.bids ∧ NodupKeys st.book1.asks
       ∧ NodupKeys st.book2.bids ∧ NodupKeys st.book2.asks)
      ∧ (Keys3 st.book1.bids ∧ Keys3 st.book1.asks
       ∧ Keys3 st.book2.bids ∧ Keys3 st.book2.asks)) :
    ((NodupKeys (applyMutationOB st m).book1.bids
      ∧ NodupKeys (applyMutationOB st m).book1.asks
      ∧ NodupKeys (applyMutationOB st m).book2.bids
      ∧ NodupKeys (applyMutationOB st m).book2.asks)
     ∧ (Keys3 (applyMutationOB st m).book1.bids
      ∧ Keys3 (applyMutationOB st m).book1.asks
      ∧ Keys3 (applyMutationOB st m).book2.bids
      ∧ Keys3 (applyMutationOB st m).book2.asks))
    ∧ MirrorInv (applyMutationOB st m) := by
  obtain ⟨⟨h1b, h1a, h2b, h2a⟩, ⟨k1b, k1a, k2b, k2a⟩⟩ := h
  cases m with
  | snapshot onFirst bids asks =>
      have hb : NodupKeys (OrderBook_process_book_data bids asks).bids :=
        nodupKeys_buildSide round3 bids
      have ha : NodupKeys (OrderBook_process_book_data bids asks).asks :=
        nodupKeys_buildSide round3 asks
      have kb : Keys3 (OrderBook_process_book_data bids asks).bids :=
        keys3_buildSide_round3 bids
      have ka : Keys3 (OrderBook_process_book_data bids asks).asks :=
        keys3_buildSide_round3 asks
      have hsb : NodupKeys
          (OrderBook_sync_reverse_token (OrderBook_process_book_data bids asks)).bids :=
        nodupKeys_syncSide (fun p => round3 (1 - p))
          (OrderBook_process_book_data bids asks).asks
      have hsa : NodupKeys
          (OrderBook_sync_reverse_token (OrderBook_process_book_data bids asks)).asks :=
        nodupKeys_syncSide (fun p => round3 (1 - p))
          (OrderBook_process_book_data bids asks).bids
      have ksb : Keys3
          (OrderBook_sync_reverse_token (OrderBook_process_book_data bids asks)).bids :=
        keys3_syncSide_round3 (OrderBook_process_book_data bids asks).asks
      have ksa : Keys3
          (OrderBook_sync_reverse_token (OrderBook_process_book_data bids asks)).asks :=
        keys3_syncSide_round3 (OrderBook_process_book_data bids asks).bids
      cases onFirst
      · exact ⟨⟨⟨hsb, hsa, hb, ha⟩, ⟨ksb, ksa, kb, ka⟩⟩,
          mirror_pair_ob_rev _ hb ha kb ka⟩
      · exact ⟨⟨⟨hb, ha, hsb, hsa⟩, ⟨kb, ka, ksb, ksa⟩⟩,
          mirror_pair_ob _ hb ha kb ka⟩
  | priceChange onFirst side price size =>
      cases onFirst
      · have hpc := nodup_ob_price_change st.book2 side price size h2b h2a
        have kpc := keys3_ob_price_change st.book2 side price size k2b k2a
        have hsb : NodupKeys (OrderBook_sync_reverse_token
            (OrderBook_process_price_change st.book2 side price size)).bids :=
          nodupKeys_syncSide (fun p => round3 (1 - p))
            (OrderBook_process_price_change st.book2 side price size).asks
        have hsa : NodupKeys (OrderBook_sync_reverse_token
            (OrderBook_process_price_change st.book2 side price size)).asks :=
          nodupKeys_syncSide (fun p => round3 (1 - p))
            (OrderBook_process_price_change st.book2 side price size).bids
        have ksb : Keys3 (OrderBook_sync_reverse_token
            (OrderBook_process_price_change st.book2 side price size)).bids :=
          keys3_syncSide_round3
            (OrderBook_process_price_change st.book2 side price size).asks
        have ksa : Keys3 (OrderBook_sync_reverse_token
            (OrderBook_process_price_change st.book2 side price size)).asks :=
          keys3_syncSide_round3
            (OrderBook_process_price_change st.book2 side price size).bids
        exact ⟨⟨⟨hsb, hsa, hpc.1, hpc.2⟩, ⟨ksb, ksa, kpc.1, kpc.2⟩⟩,
          mirror_pair_ob_rev _ hpc.1 hpc.2 kpc.1 kpc.2⟩
      · have hpc := nodup_ob_price_change st.book1 side price size h1b h1a
        have kpc := keys3_ob_price_change st.book1 side price size k1b k1a
        have hsb : NodupKeys (OrderBook_sync_reverse_token
            (OrderBook_process_price_change st.book1 side price size)).bids :=
          nodupKeys_syncSide (fun p => round3 (1 - p))
            (OrderBook_process_price_change st.book1 side price size).asks
        have hsa : NodupKeys (OrderBook_sync_reverse_token
            (OrderBook_process_price_change st.book1 side price size)).asks :=
          nodupKeys_syncSide (fun p => round3 (1 - p))
            (OrderBook_process_price_change st.book1 side price size).bids
        have ksb : Keys3 (OrderBook_sync_reverse_token
            (OrderBook_process_price_change st.book1 side price size)).bids :=
          keys3_syncSide_round3
            (OrderBook_process_price_change st.book1 side price size).asks
        have ksa : Keys3 (OrderBook_sync_reverse_token
            (OrderBook_process_price_change st.book1 side price size)).asks :=
          keys3_syncSide_round3
            (OrderBook_process_price_change st.book1 side price size).bids
        exact ⟨⟨⟨hpc.1, hpc.2, hsb, hsa⟩, ⟨kpc.1, kpc.2, ksb, ksa⟩⟩,
          mirror_pair_ob _ hpc.1 hpc.2 kpc.1 kpc.2⟩

theorem runDP_ok (ms : List BookMutation) (st : PairBooks)
    (h : (NodupKeys st.book1.bids ∧ NodupKeys st.book1.asks
       ∧ NodupKeys st.book2.bids ∧ NodupKeys st.book2.asks)
      ∧ MirrorInv st) :
    (NodupKeys (ms.foldl applyMutationDP st).book1.bids
      ∧ NodupKeys (ms.foldl applyMutationDP st).book1.asks
      ∧ NodupKeys (ms.foldl applyMutationDP st).book2.bids
      ∧ NodupKeys (ms.foldl applyMutationDP st).book2.asks)
    ∧ MirrorInv (ms.foldl applyMutationDP st) := by
  induction ms generalizing st with
  | nil => exact h
  | cons m rest ih =>
      exact ih (applyMutationDP st m) (applyMutationDP_ok st m h.1)

theorem runOB_ok (ms : List BookMutation) (st : PairBooks)
    (h : ((NodupKeys st.book1.bids ∧ NodupKeys st.book1.asks
       ∧ NodupKeys st.book2.bids ∧ NodupKeys st.book2.asks)
      ∧ (Keys3 st.book1.bids ∧ Keys3 st.book1.asks
       ∧ Keys3 st.book2.bids ∧ Keys3 st.book2.asks))
      ∧ MirrorInv st) :
    (((NodupKeys (ms.foldl applyMutationOB st).book1.bids
      ∧ NodupKeys (ms.foldl applyMutationOB st).book1.asks
      ∧ NodupKeys (ms.foldl applyMutationOB st).book2.bids
      ∧ NodupKeys (ms.foldl applyMutationOB st).book2.asks)
     ∧ (Keys3 (ms.foldl applyMutationOB st).book1.bids
      ∧ Keys3 (ms.foldl applyMutationOB st).book1.asks
      ∧ Keys3 (ms.foldl applyMutationOB st).book2.bids
      ∧ Keys3 (ms.foldl applyMutationOB st).book2.asks))
     ∧ MirrorInv (ms.foldl applyMutationOB st)) := by
  induction ms generalizing st with
  | nil => exact h
  | cons m rest ih =>
      exact ih (applyMutationOB st m) (applyMutationOB_ok st m h.1)

/-- C1 (mirror invariant): after any sequence of book mutations (full
snapshots or price-change applications, on either token of a
complementary pair), every price level `(p, s)` in the asks of one token
has a bid level `(1-p, s)` in the complementary token's book, and
symmetrically for bids; a level absent on one side is absent from the
mirror.  The statement covers both book stores: the
`global_state.order_book_data` store maintained by data_processing.py and
the `OrderBook` registry of order_books.py. -/
theorem mirror_invariant :
    (∀ ms : List BookMutation, MirrorInv (runDP ms))
    ∧ (∀ ms : List BookMutation, MirrorInv (runOB ms)) := by
  constructor
  · intro ms
    refine (runDP_ok ms _ ⟨?_, ?_⟩).2
    · simp [emptyBook, NodupKeys, keysOf]
    · intro p
      exact ⟨rfl, rfl, rfl, rfl⟩
  · intro ms
    refine (runOB_ok ms _ ⟨⟨?_, ?_⟩, ?_⟩).2
    · simp [emptyBook, NodupKeys, keysOf]
    · refine ⟨?_, ?_, ?_, ?_⟩ <;> intro e he <;> cases he
    · intro p
      exact ⟨rfl, rfl, rfl, rfl⟩

theorem mem_send_sell_order (token : String) (orders : TokenOrders)
    (price size : ℚ) (e : Effect)
    (h : e ∈ send_sell_order token orders price size) :
    e = Effect.cancelAllAsset token
    ∨ e = Effect.createOrder token Side.sell price size := by
  simp only [send_sell_order] at h
  repeat' split at h
  all_goals simp at h
  all_goals tauto

theorem mem_send_buy_order (token : String) (orders : TokenOrders)
    (price size : ℚ) (e : Effect)
    (h : e ∈ send_buy_order token orders price size) :
    e = Effect.cancelAllAsset token
    ∨ e = Effect.createOrder token Side.buy price size := by
  simp only [send_buy_order] at h
  repeat' split at h
  all_goals simp at h
  all_goals tauto

theorem send_sell_no_buy (token tok2 : String) (orders : TokenOrders)
    (price size p s : ℚ) :
    Effect.createOrder tok2 Side.buy p s ∉ send_sell_order token orders price size := by
  intro h
  rcases mem_send_sell_order token orders price size _ h with h1 | h1 <;>
    simp at h1

/-- C4 (stop-loss): in a trading pass for a token with `avgPrice > 0`,
whenever `pnl = (mid - avgPrice)/avgPrice * 100 < -4` and
`top_ask - top_bid ≤ 0.04`, the engine performs exactly the stop-loss
sell of the entire (2-decimal rounded) position at `top_bid` (through the
cancel-replace sell pipeline) followed by the risk-journal write with
`sleep_till = now + 90` minutes, and performs no further quoting on the
token: no buy is created and every order created is that sell. -/
theorem stop_loss_trip (inp : TokenPassInput) (tb ta : ℚ)
    (hb : inp.topBidOpt = some tb) (ha : inp.topAskOpt = some ta)
    (havg : 0 < inp.avgPrice)
    (hpnl : ((tb + ta) / 2 - inp.avgPrice) / inp.avgPrice * 100
      < TCNF.STOP_LOSS_THRESHOLD)
    (hspread : ta - tb ≤ TCNF.STOP_LOSS_SPREAD_THRESHOLD) :
    perform_trade_token inp
      = send_sell_order inp.token inp.orders tb (roundDown2 inp.posSize)
        ++ [Effect.writeRiskJournal inp.market
              (inp.now + TCNF.STOP_LOSS_SLEEP_PERIOD_MINS)]
    ∧ (∀ p s, Effect.createOrder inp.token Side.buy p s ∉ perform_trade_token inp)
    ∧ (∀ t s p sz, Effect.createOrder t s p sz ∈ perform_trade_token inp →
        t = inp.token ∧ s = Side.sell ∧ p = tb ∧ sz = roundDown2 inp.posSize) := by
  have hc : pnlOf inp.avgPrice ((tb + ta) / 2) < TCNF.STOP_LOSS_THRESHOLD := by
    rw [pnlOf, if_pos havg]
    exact hpnl
  have heq : perform_trade_token inp
      = send_sell_order inp.token inp.orders tb (roundDown2 inp.posSize)
        ++ [Effect.writeRiskJournal inp.market
              (inp.now + TCNF.STOP_LOSS_SLEEP_PERIOD_MINS)] := by
    simp only [perform_trade_token, hb, ha]
    rw [if_pos ⟨hc, hspread⟩]
  refine ⟨heq, ?_, ?_⟩
  · intro p s hmem
    rw [heq] at hmem
    rcases List.mem_append.mp hmem with h1 | h1
    · exact send_sell_no_buy inp.token inp.token inp.orders tb
        (roundDown2 inp.posSize) p s h1
    · simp at h1
  · intro t s p sz hmem
    rw [heq] at hmem
    rcases List.mem_append.mp hmem with h1 | h1
    · rcases mem_send_sell_order _ _ _ _ _ h1 with h2 | h2
      · simp at h2
      · simp only [Effect.createOrder.injEq] at h2
        exact ⟨h2.1, h2.2.1, h2.2.2⟩
    · simp at h1

/-- Witness for `stop_loss_trip` at the spec's stop-loss example
(position 100 at 0.50, book 0.46/0.48). -/
theorem stop_loss_trip_witness :
    perform_trade_token egStopInp
      = send_sell_order "T1" egStopInp.orders (46/100) (roundDown2 100)
        ++ [Effect.writeRiskJournal "M" (1000 + TCNF.STOP_LOSS_SLEEP_PERIOD_MINS)] := by
  have h := stop_loss_trip egStopInp (46/100) (48/100) rfl rfl
    (by norm_num [egStopInp])
    (by norm_num [egStopInp, TCNF.STOP_LOSS_THRESHOLD])
    (by norm_num [TCNF.STOP_LOSS_SPREAD_THRESHOLD])
  exact h.1

/-- C5 (box-sum guard): in every trading pass where the complementary
position is larger than `row.min_size`, every buy the engine creates on
the token satisfies `price + avgPrice(complementary) < 0.99`; when
`bid_price + avgPrice(complementary) ≥ 0.99` no buy is created at all,
and -- when the buy branch is reached -- an existing buy order larger
than `MIN_MERGE_SIZE = 20` makes the pass exactly cancel all orders on
the token. -/
theorem box_sum_guard (inp : TokenPassInput)
    (hrev : inp.row.min_size < inp.revPos.size) :
    (∀ p s, Effect.createOrder inp.token Side.buy p s ∈ perform_trade_token inp →
        p + inp.revPos.avgPrice < TCNF.PRICE_PRECISION_LIMIT)
    ∧ (TCNF.PRICE_PRECISION_LIMIT ≤ inp.bidPrice + inp.revPos.avgPrice →
        ∀ p s, Effect.createOrder inp.token Side.buy p s ∉ perform_trade_token inp)
    ∧ (∀ tb ta, inp.topBidOpt = some tb → inp.topAskOpt = some ta →
        ¬ (pnlOf inp.avgPrice ((tb + ta) / 2) < TCNF.STOP_LOSS_THRESHOLD
            ∧ ta - tb ≤ TCNF.STOP_LOSS_SPREAD_THRESHOLD) →
        ¬ (inp.sellOnly = true ∧ 0 < inp.sellAmount) →
        roundDown2 inp.posSize < maxSizeOf inp.row (roundDown2 inp.posSize) →
        0 < inp.buyAmount → inp.row.min_size ≤ inp.buyAmount →
        inp.riskOff = false →
        TCNF.PRICE_PRECISION_LIMIT ≤ inp.bidPrice + inp.revPos.avgPrice →
        TCNF.MIN_MERGE_SIZE < inp.orders.buy.size →
        perform_trade_token inp = [Effect.cancelAllAsset inp.token]) := by
  have hbuy : ∀ p s, Effect.createOrder inp.token Side.buy p s ∈ perform_trade_token inp →
      p = inp.bidPrice
      ∧ inp.bidPrice + inp.revPos.avgPrice < TCNF.PRICE_PRECISION_LIMIT := by
    intro p s hmem
    unfold perform_trade_token at hmem
    split at hmem
    · split at hmem
      · rcases List.mem_append.mp hmem with h1 | h1
        · exact absurd h1 (send_sell_no_buy _ _ _ _ _ _ _)
        · simp at h1
      · split at hmem
        · exact absurd hmem (send_sell_no_buy _ _ _ _ _ _ _)
        · split at hmem
          · split at hmem
            · cases hmem
            · split at hmem
              · split at hmem
                · simp at hmem
                · cases hmem
              · split at hmem
                · rcases mem_send_buy_order _ _ _ _ _ hmem with h2 | h2
                  · simp at h2
                  · simp only [Effect.createOrder.injEq] at h2
                    rename_i hguard _
                    refine ⟨h2.2.2.1, ?_⟩
                    by_contra hge
                    exact hguard ⟨hrev, le_of_not_lt hge⟩
                · cases hmem
          · split at hmem
            · exact absurd hmem (send_sell_no_buy _ _ _ _ _ _ _)
            · cases hmem
    · cases hmem
  refine ⟨?_, ?_, ?_⟩
  · intro p s hmem
    have h := hbuy p s hmem
    rw [h.1]
    exact h.2
  · intro hsum p s hmem
    have h := hbuy p s hmem
    exact absurd h.2 (not_lt.mpr hsum)
  · intro tb ta hb ha hstop hso hps hba hmin hrisk hsum hmerge
    simp only [perform_trade_token, hb, ha]
    rw [if_neg hstop, if_neg hso, if_pos ⟨hps, hba, hmin⟩, hrisk]
    rw [if_neg (by decide : ¬ (false = true))]
    rw [if_pos ⟨hrev, hsum⟩, if_pos hmerge]

/-- Witness for `box_sum_guard` at the spec's box-sum example: 0.46 + 0.55
≥ 0.99 with complementary size 50 > min_size 10 and an existing buy of 25
> 20 makes the pass cancel all orders on the token. -/
theorem box_sum_guard_witness :
    perform_trade_token egBoxInp = [Effect.cancelAllAsset "T2"] := by
  have h := (box_sum_guard egBoxInp (by norm_num [egBoxInp, egTradeRow])).2.2
    (45/100) (47/100) rfl rfl
    (by norm_num [egBoxInp, pnlOf, TCNF.STOP_LOSS_THRESHOLD,
      TCNF.STOP_LOSS_SPREAD_THRESHOLD])
    (by norm_num [egBoxInp])
    (by norm_num [egBoxInp, egTradeRow, maxSizeOf, roundDown2])
    (by norm_num [egBoxInp]) (by norm_num [egBoxInp, egTradeRow])
    (by norm_num [egBoxInp])
    (by norm_num [egBoxInp, TCNF.PRICE_PRECISION_LIMIT])
    (by norm_num [egBoxInp, TCNF.MIN_MERGE_SIZE])
  exact h

/-- C6 counterexample: for a maker-matched trade whose maker outcome
equals the event outcome, the claim says the trade is booked against the
complementary token; the code keeps the event's own `asset_id` (it only
remaps the token in the different-outcome branch), while it does invert
the side. -/
theorem trade_attribution_counterexample :
    (process_trade_attribution "w" egRev egTradeEvent).side = Side.sell
    ∧ egMaker.outcome = egTradeEvent.outcome
    ∧ egRev egTradeEvent.asset_id = "T2"
    ∧ (process_trade_attribution "w" egRev egTradeEvent).token = "T1"
    ∧ (process_trade_attribution "w" egRev egTradeEvent).token
        ≠ egRev egTradeEvent.asset_id := by
  refine ⟨rfl, rfl, rfl, rfl, ?_⟩
  decide

theorem maker_scan_no_match (wallet : String)
    (reverseTokens : String → String) (ev : TradeEvent)
    (l : List MakerOrder) (acc : TradeAttribution)
    (h : ∀ mo ∈ l, mo.maker_address ≠ wallet) :
    l.foldl (maker_scan_step wallet reverseTokens ev) acc = acc := by
  induction l generalizing acc with
  | nil => rfl
  | cons e t ih =>
      have hstep : maker_scan_step wallet reverseTokens ev acc e = acc := by
        simp [maker_scan_step, h e (List.mem_cons_self e t)]
      simp only [List.foldl_cons, hstep]
      exact ih acc (fun mo hm => h mo (List.mem_cons_of_mem e hm))

/-- C6 as amended: for every trade event in which exactly one
`maker_orders` entry matches the agent wallet (any number of other
makers' entries may precede or follow it), the processed size and price
come from that entry's `matched_amount` and `price`; when that entry's
outcome equals the event's top-level outcome the side is inverted and the
trade stays on the event's `asset_id`; when the outcomes differ the side
is kept and the trade is booked against the complementary token. -/
theorem trade_attribution_amended (wallet : String)
    (reverseTokens : String → String) (ev : TradeEvent)
    (pre post : List MakerOrder) (mo : MakerOrder)
    (hmo : ev.maker_orders = pre ++ mo :: post)
    (hw : mo.maker_address = wallet)
    (hpre : ∀ e ∈ pre, e.maker_address ≠ wallet)
    (hpost : ∀ e ∈ post, e.maker_address ≠ wallet) :
    (process_trade_attribution wallet reverseTokens ev).size = mo.matched_amount
    ∧ (process_trade_attribution wallet reverseTokens ev).price = mo.price
    ∧ (mo.outcome = ev.outcome →
        (process_trade_attribution wallet reverseTokens ev).side
            = invertSide ev.side
        ∧ (process_trade_attribution wallet reverseTokens ev).token
            = ev.asset_id)
    ∧ (mo.outcome ≠ ev.outcome →
        (process_trade_attribution wallet reverseTokens ev).side = ev.side
        ∧ (process_trade_attribution wallet reverseTokens ev).token
            = reverseTokens ev.asset_id) := by
  have hloop : ∀ acc, (pre ++ mo :: post).foldl
      (maker_scan_step wallet reverseTokens ev) acc
      = maker_scan_step wallet reverseTokens ev acc mo := by
    intro acc
    rw [List.foldl_append, maker_scan_no_match wallet reverseTokens ev pre acc hpre,
      List.foldl_cons,
      maker_scan_no_match wallet reverseTokens ev post _ hpost]
  by_cases ho : mo.outcome = ev.outcome
  · simp [process_trade_attribution, hmo, hloop, maker_scan_step, hw, ho]
  · simp [process_trade_attribution, hmo, hloop, maker_scan_step, hw, ho]

/-- Witness for `trade_attribution_amended` at the equal-outcome example
with a non-matching maker entry ahead of the agent's entry. -/
theorem trade_attribution_amended_witness :
    (process_trade_attribution "w" egRev egTradeEventMulti).size = 10
    ∧ (process_trade_attribution "w" egRev egTradeEventMulti).side
        = invertSide Side.buy
    ∧ (process_trade_attribution "w" egRev egTradeEventMulti).token = "T1" := by
  have hpre : ∀ e ∈ [egOtherMaker], e.maker_address ≠ "w" := by
    intro e he
    rw [List.mem_singleton] at he
    subst he
    decide
  have h := trade_attribution_amended "w" egRev egTradeEventMulti
    [egOtherMaker] [] egMaker rfl rfl hpre (by intro e he; cases he)
  exact ⟨h.1, (h.2.2.1 rfl).1, (h.2.2.1 rfl).2⟩

/-- C7 counterexample: the claim says an order event leaves the stored
order of the opposite side unchanged; processing a buy PLACEMENT on a
token holding both a buy and a sell order discards the sell record
(`set_order` replaces the whole per-token dict with a single-side dict),
so the sell side reads as the zero order afterwards. -/
theorem order_event_counterexample :
    (get_order egOrders "T").2 = { price := 3/5, size := 50 }
    ∧ (get_order (process_order_event egOrders "T" Side.buy
        OrderEventType.PLACEMENT 10 0 (41/100)) "T").2
        = { price := 0, size := 0 }
    ∧ (get_order (process_order_event egOrders "T" Side.buy
        OrderEventType.PLACEMENT 10 0 (41/100)) "T").2
        ≠ (get_order egOrders "T").2 := by
  refine ⟨rfl, rfl, ?_⟩
  show ({ price := 0, size := 0 } : OrderRec) ≠ { price := 3/5, size := 50 }
  intro h
  have h2 := congrArg OrderRec.size h
  norm_num at h2

theorem option_size_getD (o : Option OrderRec) :
    (o.map OrderRec.size).getD 0 = (o.getD { price := 0, size := 0 }).size := by
  cases o <;> rfl

/-- C7 as amended: an order event for `(token, side)` stores
`{price, size: open_size}` into that side, where `open_size` is the
previous same-side open size adjusted by the event type (plus
`original_size` on PLACEMENT, minus `size_matched` on UPDATE, minus
`original_size` on CANCELLATION) and clamped at zero; other tokens are
untouched, but the stored order of the opposite side of the same token is
reset to the zero order rather than left unchanged. -/
theorem process_order_event_effect
    (orders : String → Option TokenOrderEntries) (token : String)
    (etype : OrderEventType) (os sm price : ℚ) :
    (∀ side t, t ≠ token →
        process_order_event orders token side etype os sm price t = orders t)
    ∧ get_order (process_order_event orders token Side.buy etype os sm price)
        token
        = ({ price := price,
             size := max (adjustedOpenSize (get_order orders token).1.size
                            os sm etype) 0 },
           { price := 0, size := 0 })
    ∧ get_order (process_order_event orders token Side.sell etype os sm price)
        token
        = ({ price := 0, size := 0 },
           { price := price,
             size := max (adjustedOpenSize (get_order orders token).2.size
                            os sm etype) 0 }) := by
  refine ⟨?_, ?_, ?_⟩
  · intro side t ht
    simp [process_order_event, set_order, ht]
  · cases horders : orders token with
    | none => simp [process_order_event, set_order, get_order, horders]
    | some e =>
        simp [process_order_event, set_order, get_order, horders,
          option_size_getD]
  · cases horders : orders token with
    | none => simp [process_order_event, set_order, get_order, horders]
    | some e =>
        simp [process_order_event, set_order, get_order, horders,
          option_size_getD]

/-- Witness for `process_order_event_effect` on the concrete store. -/
theorem process_order_event_effect_witness :
    process_order_event egOrders "T" Side.buy OrderEventType.PLACEMENT
        10 0 (41/100) "U" = egOrders "U"
    ∧ get_order (process_order_event egOrders "T" Side.buy
        OrderEventType.PLACEMENT 10 0 (41/100)) "T"
        = ({ price := 41/100,
             size := max (adjustedOpenSize (get_order egOrders "T").1.size
                            10 0 OrderEventType.PLACEMENT) 0 },
           { price := 0, size := 0 }) := by
  have h := process_order_event_effect egOrders "T" OrderEventType.PLACEMENT
    10 0 (41/100)
  exact ⟨h.1 Side.buy "U" (by decide), h.2.1⟩

theorem sumSizes_nonneg (l : List (ℚ × ℚ)) (h : ∀ e ∈ l, 0 ≤ e.2) :
    0 ≤ sumSizes l := by
  unfold sumSizes
  apply List.sum_nonneg
  intro x hx
  rcases List.mem_map.mp hx with ⟨e, he, rfl⟩
  exact h e he

/-- C9 (imbalance totality): the claim says `get_imbalance` returns a
float in `[-1, 1]` on every book state, with computation errors mapped to
the neutral `0`.  On a non-empty book whose imbalance window holds no
level -- e.g. bids `[(0.10, 50)]`, asks `[(0.90, 60)]`, midpoint `0.5`,
window `[0.35, 0.65]` -- the code divides `0.0/0.0`; in numpy that raises
nothing and yields NaN (modelled `none`), which the `except` does not
map to `0`, contradicting the function's own docstring (`order_books.py`
lines 150-153).  Whenever the division is valid, the result does lie in
`[-1, 1]` for non-negative sizes. -/
theorem imbalance_nan_on_empty_window :
    get_imbalance [((1 : ℚ)/10, 50)] [((9 : ℚ)/10, 60)] = none
    ∧ (∀ (bids asks : List (ℚ × ℚ)) (mid r : ℚ),
        (∀ e ∈ bids, 0 ≤ e.2) → (∀ e ∈ asks, 0 ≤ e.2) →
        calculate_market_imbalance bids asks mid = some r →
        -1 ≤ r ∧ r ≤ 1) := by
  constructor
  · norm_num [get_imbalance, calculate_market_imbalance, sortDesc, sortAsc,
      insertDesc, insertAsc, priceMin, priceMax, sumSizes,
      TCNF.MARKET_DEPTH_CALC_LEVELS, TCNF.MARKET_DEPTH_CALC_PCT,
      List.filter, List.take]
  · intro bids asks mid r hb ha hcalc
    simp only [calculate_market_imbalance] at hcalc
    split at hcalc
    · cases hcalc
    · rename_i hne
      have hbn : 0 ≤ sumSizes (bids.filter
          (fun e => max (priceMin ((sortDesc (bids.filter
              (fun e => e.1 ≤ mid))).take TCNF.MARKET_DEPTH_CALC_LEVELS) mid)
            (mid - min mid (1 - mid) * TCNF.MARKET_DEPTH_CALC_PCT / 2) ≤ e.1
            ∧ e.1 ≤ min (priceMax ((sortAsc (asks.filter
              (fun e => mid ≤ e.1))).take TCNF.MARKET_DEPTH_CALC_LEVELS) mid)
            (mid + min mid (1 - mid) * TCNF.MARKET_DEPTH_CALC_PCT / 2))) :=
        sumSizes_nonneg _ (fun e he => hb e (List.mem_of_mem_filter he))
      have han : 0 ≤ sumSizes (asks.filter
          (fun e => max (priceMin ((sortDesc (bids.filter
              (fun e => e.1 ≤ mid))).take TCNF.MARKET_DEPTH_CALC_LEVELS) mid)
            (mid - min mid (1 - mid) * TCNF.MARKET_DEPTH_CALC_PCT / 2) ≤ e.1
            ∧ e.1 ≤ min (priceMax ((sortAsc (asks.filter
              (fun e => mid ≤ e.1))).take TCNF.MARKET_DEPTH_CALC_LEVELS) mid)
            (mid + min mid (1 - mid) * TCNF.MARKET_DEPTH_CALC_PCT / 2))) :=
        sumSizes_nonneg _ (fun e he => ha e (List.mem_of_mem_filter he))
      rw [Option.some.injEq] at hcalc
      subst hcalc
      constructor
      · rw [le_div_iff₀ (lt_of_le_of_ne (by linarith) (Ne.symm hne))]
        linarith
      · rw [div_le_one (lt_of_le_of_ne (by linarith) (Ne.symm hne))]
        linarith

/-- Witness for `imbalance_nan_on_empty_window` (second part) on a book
whose window holds size: bids `[(0.4, 30)]`, asks `[(0.6, 10)]`,
midpoint 0.5 give imbalance `(30-10)/(30+10) = 1/2 ∈ [-1, 1]`. -/
theorem imbalance_nan_on_empty_window_witness :
    calculate_market_imbalance ([((2 : ℚ)/5, 30)] : List (ℚ × ℚ))
        ([((3 : ℚ)/5, 10)] : List (ℚ × ℚ)) (1/2) = some (1/2)
    ∧ (-1 ≤ (1 : ℚ)/2 ∧ (1 : ℚ)/2 ≤ 1) := by
  have hcalc : calculate_market_imbalance ([((2 : ℚ)/5, 30)] : List (ℚ × ℚ))
      ([((3 : ℚ)/5, 10)] : List (ℚ × ℚ)) (1/2) = some (1/2) := by
    norm_num [calculate_market_imbalance, sortDesc, sortAsc,
      insertDesc, insertAsc, priceMin, priceMax, sumSizes,
      TCNF.MARKET_DEPTH_CALC_LEVELS, TCNF.MARKET_DEPTH_CALC_PCT,
      List.filter, List.take]
  refine ⟨hcalc, ?_⟩
  exact imbalance_nan_on_empty_window.2 [((2 : ℚ)/5, 30)] [((3 : ℚ)/5, 10)]
    (1/2) (1/2) (by norm_num) (by norm_num) hcalc

end PolyMaker
